import Mathlib

/-!
Verification of the Minesweeper game-state machine from `src/game_logic.rs`
(crate `Quan-Minesweeper`).

Shallow embedding notes:

* Rust `isize`/`i64` values (`rows`, `columns`, `mines`, `cleared`,
  `elapsed_seconds`) stay far below any overflow bound (the largest grid is
  12 × 18 = 216 cells), so they are modelled as `Int` without wrap-around.
* The per-cell `WriteSignal` stored in `CellState` and the `ReadSignal`s of
  `GameState` are UI notification channels; they carry no game state, so they
  are omitted from the embedding.  The `timer` action and the staggered
  loss-reveal task only mutate `GameInfo.elapsed_seconds` and send cosmetic
  per-cell signals; neither mutates `cell_states`, `cleared` or `status`, so
  they are likewise omitted.
* The score submission `post_score.dispatch(...)` performed on the Victory
  transition is recorded in an explicit `posts` list so that dispatches are
  observable.  The username read from the `Username` context signal is kept
  as a `username` field of the state.
* `rand::thread_rng().gen_range(0..total)` is modelled by an arbitrary stream
  `σ : Nat → Nat`, sample `k` being `σ k % total`.  The rejection-sampling
  loop of `GameState::start`, which the Rust code runs without bound, is given
  explicit fuel; running out of fuel is reported as `none` (the code would
  still be looping).
* `mines = (total as f64 * probability) as isize` is modelled as the integer
  computation `total * percent / 100`.  For every reachable input — totals
  96, 150, 216 with probabilities 0.15, 0.25, 0.35 — the truncated `f64`
  product equals this exact rational floor (14, 24, 33, 22, 37, 52, 32, 54,
  75), so the two computations agree on the whole reachable domain.
* Vector indexing `self.cell_states[index]` and the `expect("within bounds")`
  calls are total in the source under the invariant
  `cell_states.len() = rows * columns`; the embedding uses `List.get?` /
  `List.getD` and is extensionally equal to the source on every state
  satisfying that invariant.
-/

/-- `Difficulty` from `game_settings.rs`. -/
inductive Difficulty
  | Easy
  | Normal
  | Hard
deriving DecidableEq

/-- `Size` from `game_settings.rs`. -/
inductive Size
  | Small
  | Medium
  | Large
deriving DecidableEq

/-- `GameStatus` from `game_logic.rs` (default `Idle`). -/
inductive GameStatus
  | Idle
  | Started
  | GameOver
  | Victory
deriving DecidableEq

instance : Inhabited GameStatus := ⟨GameStatus.Idle⟩

/-- `CellInteraction` from `game_logic.rs` (default `Untouched`). -/
inductive CellInteraction
  | Untouched
  | Cleared
  | Flagged
deriving DecidableEq

instance : Inhabited CellInteraction := ⟨CellInteraction.Untouched⟩

/-- `CellKind` from `game_logic.rs` (default `Clear(0)`). -/
inductive CellKind
  | Mine
  | Clear (n : Nat)
deriving DecidableEq

instance : Inhabited CellKind := ⟨CellKind.Clear 0⟩

/-- `CellState` from `game_logic.rs`; the `signal` field (a UI write handle)
is omitted, see the header comment. -/
structure CellState where
  interaction : CellInteraction
  kind : CellKind
deriving DecidableEq

instance : Inhabited CellState := ⟨⟨CellInteraction.Untouched, CellKind.Clear 0⟩⟩

/-- `CellState::is_mine`. -/
def CellState.is_mine (cell : CellState) : Bool :=
  match cell.kind with
  | CellKind.Mine => true
  | CellKind.Clear _ => false

/-- `CellState::is_clear`. -/
def CellState.is_clear (cell : CellState) : Bool :=
  match cell.kind with
  | CellKind.Mine => false
  | CellKind.Clear _ => true

/-- `CellState::is_untouched`. -/
def CellState.is_untouched (cell : CellState) : Bool :=
  match cell.interaction with
  | CellInteraction.Untouched => true
  | _ => false

/-- `CellState::is_flagged`. -/
def CellState.is_flagged (cell : CellState) : Bool :=
  match cell.interaction with
  | CellInteraction.Flagged => true
  | _ => false

/-- `GameInfo` from `game_logic.rs`. -/
structure GameInfo where
  elapsed_seconds : Int
  cleared : Int
  clear_total : Int
  status : GameStatus
deriving DecidableEq

instance : Inhabited GameInfo := ⟨⟨0, 0, 0, GameStatus.Idle⟩⟩

/-- The `PostScore` server action payload from `pages/scores.rs`, dispatched
by `GameState::update_score` on the Victory transition. -/
structure PostScore where
  username : String
  time_in_seconds : Int
  difficulty : Difficulty
  size : Size
deriving DecidableEq

/-- The `ADJACENTS` offset table from `game_logic.rs`. -/
def ADJACENTS : List (Int × Int) :=
  [(-1, -1), (-1, 0), (-1, 1), (0, -1), (0, 1), (1, -1), (1, 0), (1, 1)]

/-- `GameState` from `game_logic.rs`.  Signals, the timer action and the
new-game-enabled flag are omitted (UI / background concurrency); `posts`
records dispatched `PostScore` submissions and `username` holds the value of
the `Username` context signal. -/
structure GameState where
  difficulty : Difficulty
  size : Size
  rows : Int
  columns : Int
  mines : Int
  cleared : Int
  cell_states : List CellState
  status : GameStatus
  info : GameInfo
  username : String
  posts : List PostScore
deriving DecidableEq

/-- The mine probability of each difficulty, as a percentage
(`EASY_PROB = 0.15`, `NORMAL_PROB = 0.25`, `HARD_PROB = 0.35`). -/
def prob_percent : Difficulty → Int
  | Difficulty.Easy => 15
  | Difficulty.Normal => 25
  | Difficulty.Hard => 35

/-- The `(rows, columns)` constants `SMALL_SIZE`, `MEDIUM_SIZE`,
`LARGE_SIZE`. -/
def size_dims : Size → Int × Int
  | Size.Small => (8, 12)
  | Size.Medium => (10, 15)
  | Size.Large => (12, 18)

/-- `GameState::new`.  `mines = (total as f64 * prob) as isize` is embedded as
`total * percent / 100`, which agrees with the `f64` computation on all nine
reachable inputs (see the header comment). -/
def GameState.new (difficulty : Difficulty) (size : Size) (username : String) :
    GameState :=
  let dims := size_dims size
  let rows := dims.1
  let columns := dims.2
  let total := rows * columns
  let mines := total * prob_percent difficulty / 100
  { difficulty := difficulty
    size := size
    rows := rows
    columns := columns
    mines := mines
    cleared := 0
    cell_states := List.replicate total.toNat default
    status := GameStatus.Idle
    info := { elapsed_seconds := 0, cleared := 0, clear_total := total - mines,
              status := GameStatus.Idle }
    username := username
    posts := [] }

/-- `GameState::index`. -/
def GameState.index (s : GameState) (row column : Int) : Option Nat :=
  if 0 ≤ row ∧ 0 ≤ column ∧ row < s.rows ∧ column < s.columns then
    some (row * s.columns + column).toNat
  else none

/-- `GameState::get_cell_state`. -/
def GameState.get_cell_state (s : GameState) (row column : Int) :
    Option CellState :=
  (s.index row column).bind fun i => s.cell_states.get? i

/-- Writing through `GameState::get_cell_state_mut`: replace the cell at
`(row, column)` when it is in bounds, otherwise leave the state unchanged. -/
def GameState.set_cell_state (s : GameState) (row column : Int)
    (cell : CellState) : GameState :=
  match s.index row column with
  | some i => { s with cell_states := s.cell_states.set i cell }
  | none => s

/-- The count of adjacent mines computed in the second phase of
`GameState::start`. -/
def GameState.adjacent_mines (s : GameState) (row column : Int) : Nat :=
  ADJACENTS.countP fun off =>
    match s.get_cell_state (row + off.1) (column + off.2) with
    | some cell => cell.is_mine
    | none => false

/-- The count of adjacent flags computed in the `Cleared` branch of
`GameState::dig_inner`. -/
def GameState.adjacent_flags (s : GameState) (row column : Int) : Nat :=
  ADJACENTS.countP fun off =>
    match s.get_cell_state (row + off.1) (column + off.2) with
    | some cell => cell.is_flagged
    | none => false

/-- The `exclude` list built at the top of `GameState::start`: the indices of
the clicked cell and its in-bounds neighbours. -/
def GameState.exclude_zone (s : GameState) (row column : Int) : List Nat :=
  (((0, 0) : Int × Int) :: ADJACENTS).filterMap fun off =>
    s.index (row + off.1) (column + off.2)

/-- The inner rejection-sampling loop of `GameState::start`: draw sample
`σ k % total`; retry on an excluded index or an index already holding a mine;
otherwise return the accepted index together with the next sample position.
`none` models exhausting the fuel (the source would still be looping). -/
def pick_cell (σ : Nat → Nat) (total : Nat) (cells : List CellState)
    (excl : List Nat) : Nat → Nat → Option (Nat × Nat)
  | _, 0 => none
  | k, fuel + 1 =>
    if σ k % total ∈ excl then pick_cell σ total cells excl (k + 1) fuel
    else if (cells.getD (σ k % total) default).is_mine then
      pick_cell σ total cells excl (k + 1) fuel
    else some (σ k % total, k + 1)

/-- The outer `for _ in 0..self.mines` placement loop of `GameState::start`:
each iteration accepts one fresh non-excluded cell and marks it `Mine`. -/
def place_mines (σ : Nat → Nat) (total : Nat) (excl : List Nat) :
    Nat → Nat → Nat → List CellState → Option (List CellState)
  | 0, _, _, cells => some cells
  | remaining + 1, k, fuel, cells =>
    match pick_cell σ total cells excl k fuel with
    | none => none
    | some (i, k2) =>
      place_mines σ total excl remaining k2 fuel
        (cells.set i { cells.getD i default with kind := CellKind.Mine })

/-- The row-major position list traversed by the numbering phase of
`GameState::start` (`for row in 0..rows { for column in 0..columns { .. } }`). -/
def all_positions (rows columns : Int) : List (Int × Int) :=
  (List.range rows.toNat).flatMap fun r =>
    (List.range columns.toNat).map fun c => (Int.ofNat r, Int.ofNat c)

/-- One step of the numbering phase of `GameState::start`: a clear cell's kind
becomes `Clear(adjacent_mines)`. -/
def assign_step (s : GameState) (p : Int × Int) : GameState :=
  match s.get_cell_state p.1 p.2 with
  | some cell =>
    if cell.is_clear then
      s.set_cell_state p.1 p.2
        { cell with kind := CellKind.Clear (s.adjacent_mines p.1 p.2) }
    else s
  | none => s

/-- `GameState::start` (the `timer.dispatch(())` call is background
concurrency and is omitted). -/
def GameState.start (σ : Nat → Nat) (fuel : Nat) (s : GameState)
    (row column : Int) : Option GameState :=
  match place_mines σ (s.rows * s.columns).toNat (s.exclude_zone row column)
      s.mines.toNat 0 fuel s.cell_states with
  | none => none
  | some cells =>
    some { (all_positions s.rows s.columns).foldl assign_step
        { s with cell_states := cells } with
      status := GameStatus.Started }

/-- `GameState::dig_inner`, with explicit fuel bounding the recursion depth.
Along every call chain each `Untouched` cell is cleared before the recursive
calls beneath it run and a chord call recurses only into `Untouched`
neighbours, so the depth never exceeds twice the number of untouched cells
plus two; `dig_inner` below supplies fuel `2 * cell_states.length + 2`, which
therefore never runs out. -/
def GameState.dig_innerF : Nat → GameState → Int → Int → GameState
  | 0, s, _, _ => s
  | fuel + 1, s, row, column =>
    match s.get_cell_state row column with
    | none => s
    | some cell =>
      match cell.interaction with
      | CellInteraction.Untouched =>
        let s1 := s.set_cell_state row column
          { cell with interaction := CellInteraction.Cleared }
        match cell.kind with
        | CellKind.Mine => { s1 with status := GameStatus.GameOver }
        | CellKind.Clear 0 =>
          let s2 := ADJACENTS.foldl
            (fun t off => GameState.dig_innerF fuel t (row + off.1) (column + off.2)) s1
          { s2 with cleared := s2.cleared + 1 }
        | CellKind.Clear (_ + 1) => { s1 with cleared := s1.cleared + 1 }
      | CellInteraction.Cleared =>
        match cell.kind with
        | CellKind.Clear n =>
          if n = s.adjacent_flags row column then
            ADJACENTS.foldl
              (fun t off =>
                match t.get_cell_state (row + off.1) (column + off.2) with
                | some ncell =>
                  if ncell.is_untouched then
                    GameState.dig_innerF fuel t (row + off.1) (column + off.2)
                  else t
                | none => t) s
          else s
        | CellKind.Mine => s
      | CellInteraction.Flagged => s

/-- `GameState::dig_inner` (fuel instantiated so that it never runs out). -/
def GameState.dig_inner (s : GameState) (row column : Int) : GameState :=
  GameState.dig_innerF (2 * s.cell_states.length + 2) s row column

/-- `GameState::update_score`.  The Victory branch's per-cell `Flagged/Mine`
signals and the GameOver branch's loss-reveal task touch only UI channels,
never `cell_states`; the `PostScore` dispatch is recorded in `posts`. -/
def GameState.update_score (s : GameState) : GameState :=
  match s.status with
  | GameStatus.Started =>
    if s.cleared = s.rows * s.columns - s.mines then
      { s with
        status := GameStatus.Victory
        posts := s.posts ++
          [{ username := s.username
             time_in_seconds := s.info.elapsed_seconds
             difficulty := s.difficulty
             size := s.size }]
        info := { s.info with
                  cleared := s.cleared
                  status := GameStatus.Victory } }
    else
      { s with
        info := { s.info with
                  cleared := s.cleared
                  status := s.status } }
  | _ =>
    { s with
      info := { s.info with
                cleared := s.cleared
                status := s.status } }

/-- `GameState::dig`. -/
def GameState.dig (σ : Nat → Nat) (fuel : Nat) (s : GameState)
    (row column : Int) : Option GameState :=
  match s.status with
  | GameStatus.GameOver => some s
  | GameStatus.Victory => some s
  | GameStatus.Idle =>
    match GameState.start σ fuel s row column with
    | none => none
    | some s1 => some ((s1.dig_inner row column).update_score)
  | GameStatus.Started => some ((s.dig_inner row column).update_score)

/-- `GameState::flag`. -/
def GameState.flag (s : GameState) (row column : Int) : GameState :=
  match s.status with
  | GameStatus.GameOver => s
  | GameStatus.Victory => s
  | _ =>
    match s.get_cell_state row column with
    | none => s
    | some cell =>
      match cell.interaction with
      | CellInteraction.Untouched =>
        s.set_cell_state row column
          { cell with interaction := CellInteraction.Flagged }
      | CellInteraction.Cleared => s
      | CellInteraction.Flagged =>
        s.set_cell_state row column
          { cell with interaction := CellInteraction.Untouched }

/-- `GameState::reset`.  Every cell returns to the default
`(Untouched, Clear(0))`; the `GameInfo` signal is replaced wholesale. -/
def GameState.reset (s : GameState) : GameState :=
  { s with
    status := GameStatus.Idle
    cleared := 0
    cell_states := s.cell_states.map fun _ => default
    info := { elapsed_seconds := 0, cleared := 0,
              clear_total := s.rows * s.columns - s.mines,
              status := GameStatus.Idle } }

/-! ### Derived counts, invariants and reachability -/

/-- The number of cells with `interaction = Cleared` and `kind = Clear(_)` —
the quantity the `cleared` counter is meant to track. -/
def count_cleared_clear (s : GameState) : Nat :=
  s.cell_states.countP fun cell =>
    decide (cell.interaction = CellInteraction.Cleared) && cell.is_clear

/-- The number of cells whose kind is `Mine`. -/
def count_mines (s : GameState) : Nat :=
  s.cell_states.countP CellState.is_mine

/-- Some non-mine cell is flagged (a "misplaced flag"). -/
def bad_flag (s : GameState) : Prop :=
  ∃ cell ∈ s.cell_states, cell.is_flagged = true ∧ cell.is_clear = true

/-- The kind stored at a grid position (default outside the grid). -/
def kind_at (s : GameState) (p : Int × Int) : CellKind :=
  ((s.get_cell_state p.1 p.2).getD default).kind

/-- Every stored `Clear n` number equals the true count of adjacent mines
(mine cells are unconstrained).  This is what the numbering phase of
`GameState::start` establishes. -/
def accurate (s : GameState) : Prop :=
  ∀ p ∈ all_positions s.rows s.columns,
    kind_at s p = CellKind.Mine ∨
      kind_at s p = CellKind.Clear (s.adjacent_mines p.1 p.2)

/-- The state invariant maintained by every reachable game state. -/
def GameInv (s : GameState) : Prop :=
  s.cell_states.length = (s.rows * s.columns).toNat ∧
  0 < s.rows ∧ 0 < s.columns ∧
  0 < s.mines ∧ s.mines < s.rows * s.columns ∧
  s.cleared = (count_cleared_clear s : Int) ∧
  (s.status = GameStatus.Idle →
    s.cleared = 0 ∧ ∀ cell ∈ s.cell_states,
      cell.kind = CellKind.Clear 0 ∧ cell.interaction ≠ CellInteraction.Cleared) ∧
  (s.status ≠ GameStatus.Idle → count_mines s = s.mines.toNat ∧ accurate s) ∧
  (s.status = GameStatus.Started →
    s.cleared < s.rows * s.columns - s.mines) ∧
  s.info.cleared = s.cleared ∧ s.info.status = s.status

/-- A random stream is fair when, from any point on, every residue modulo any
positive bound is eventually produced.  A uniform RNG satisfies this with
probability one. -/
def Fair (σ : Nat → Nat) : Prop :=
  ∀ total k t : Nat, 0 < total → t < total → ∃ j, k ≤ j ∧ σ j % total = t

/-- States reachable from a fresh `GameState::new` by `dig`, `flag` and
`reset`. -/
inductive Reachable : GameState → Prop
  | init (difficulty : Difficulty) (size : Size) (username : String) :
      Reachable (GameState.new difficulty size username)
  | dig_step (s : GameState) (σ : Nat → Nat) (fuel : Nat) (row column : Int)
      (s2 : GameState) : Reachable s → GameState.dig σ fuel s row column = some s2 →
      Reachable s2
  | flag_step (s : GameState) (row column : Int) : Reachable s →
      Reachable (s.flag row column)
  | reset_step (s : GameState) : Reachable s → Reachable s.reset

instance decAccurate (s : GameState) : Decidable (accurate s) := by
  unfold accurate
  infer_instance

instance decBadFlag (s : GameState) : Decidable (bad_flag s) := by
  unfold bad_flag
  infer_instance

instance decGameInv (s : GameState) : Decidable (GameInv s) := by
  unfold GameInv
  infer_instance

/-! ### Concrete scenario states

A playable 8 × 12 Easy board whose mine layout is forced through the random
stream `sigma_seq`: the first dig at `(7, 11)` places the 14 mines at indices
2, 69, 70, 71, 81, 93 and 36–43 (none inside the safe zone of `(7, 11)`),
then `(0, 1)` is revealed as a `Clear 1`, and a flag is planted on the clear
cell `(1, 1)` — a misplaced flag, since the actual mine adjacent to `(0, 1)`
sits at `(0, 2)`. -/

def game0 : GameState := GameState.new Difficulty.Easy Size.Small "player"

def sigma_seq : Nat → Nat :=
  fun k => [2, 69, 70, 71, 81, 93, 36, 37, 38, 39, 40, 41, 42, 43].getD k 0

def cellU (n : Nat) : CellState :=
  ⟨CellInteraction.Untouched, CellKind.Clear n⟩

def cellUM : CellState := ⟨CellInteraction.Untouched, CellKind.Mine⟩

def cellC (n : Nat) : CellState :=
  ⟨CellInteraction.Cleared, CellKind.Clear n⟩

def cellF (n : Nat) : CellState :=
  ⟨CellInteraction.Flagged, CellKind.Clear n⟩

/-- The state after the first dig of `game0` at `(7, 11)` under `sigma_seq` (verified below by `game1_eq`). -/
def game1 : GameState :=
  { difficulty := Difficulty.Easy
    size := Size.Small
    rows := 8
    columns := 12
    mines := 14
    cleared := 4
    cell_states :=
    [cellU 0, cellU 1, cellUM, cellU 1, cellU 0, cellU 0, cellU 0, cellU 0,
      cellU 0, cellU 0, cellU 0, cellU 0, cellU 0, cellU 1, cellU 1, cellU 1,
      cellU 0, cellU 0, cellU 0, cellU 0, cellU 0, cellU 0, cellU 0, cellU 0,
      cellU 2, cellU 3, cellU 3, cellU 3, cellU 3, cellU 3, cellU 3, cellU 2,
      cellU 1, cellU 0, cellU 0, cellU 0, cellUM, cellUM, cellUM, cellUM,
      cellUM, cellUM, cellUM, cellUM, cellU 1, cellU 0, cellU 0, cellU 0,
      cellU 2, cellU 3, cellU 3, cellU 3, cellU 3, cellU 3, cellU 3, cellU 2,
      cellU 2, cellU 2, cellU 3, cellU 2, cellU 0, cellU 0, cellU 0, cellU 0,
      cellU 0, cellU 0, cellU 0, cellU 0, cellU 2, cellUM, cellUM, cellUM,
      cellU 0, cellU 0, cellU 0, cellU 0, cellU 0, cellU 0, cellU 0, cellU 0,
      cellU 3, cellUM, cellC 5, cellC 2, cellU 0, cellU 0, cellU 0, cellU 0,
      cellU 0, cellU 0, cellU 0, cellU 0, cellU 2, cellUM, cellC 2, cellC 0]
    status := GameStatus.Started
    info := { elapsed_seconds := 0
              cleared := 4
              clear_total := 82
              status := GameStatus.Started }
    username := "player"
    posts := [] }

/-- The state after further digging `game1` at `(0, 1)`, revealing a `Clear 1` (verified below by `game2_eq`). -/
def game2 : GameState :=
  { difficulty := Difficulty.Easy
    size := Size.Small
    rows := 8
    columns := 12
    mines := 14
    cleared := 5
    cell_states :=
    [cellU 0, cellC 1, cellUM, cellU 1, cellU 0, cellU 0, cellU 0, cellU 0,
      cellU 0, cellU 0, cellU 0, cellU 0, cellU 0, cellU 1, cellU 1, cellU 1,
      cellU 0, cellU 0, cellU 0, cellU 0, cellU 0, cellU 0, cellU 0, cellU 0,
      cellU 2, cellU 3, cellU 3, cellU 3, cellU 3, cellU 3, cellU 3, cellU 2,
      cellU 1, cellU 0, cellU 0, cellU 0, cellUM, cellUM, cellUM, cellUM,
      cellUM, cellUM, cellUM, cellUM, cellU 1, cellU 0, cellU 0, cellU 0,
      cellU 2, cellU 3, cellU 3, cellU 3, cellU 3, cellU 3, cellU 3, cellU 2,
      cellU 2, cellU 2, cellU 3, cellU 2, cellU 0, cellU 0, cellU 0, cellU 0,
      cellU 0, cellU 0, cellU 0, cellU 0, cellU 2, cellUM, cellUM, cellUM,
      cellU 0, cellU 0, cellU 0, cellU 0, cellU 0, cellU 0, cellU 0, cellU 0,
      cellU 3, cellUM, cellC 5, cellC 2, cellU 0, cellU 0, cellU 0, cellU 0,
      cellU 0, cellU 0, cellU 0, cellU 0, cellU 2, cellUM, cellC 2, cellC 0]
    status := GameStatus.Started
    info := { elapsed_seconds := 0
              cleared := 5
              clear_total := 82
              status := GameStatus.Started }
    username := "player"
    posts := [] }

/-- The state after flagging the clear cell `(1, 1)` of `game2` — a misplaced flag (verified below by `game3_eq`). -/
def game3 : GameState :=
  { difficulty := Difficulty.Easy
    size := Size.Small
    rows := 8
    columns := 12
    mines := 14
    cleared := 5
    cell_states :=
    [cellU 0, cellC 1, cellUM, cellU 1, cellU 0, cellU 0, cellU 0, cellU 0,
      cellU 0, cellU 0, cellU 0, cellU 0, cellU 0, cellF 1, cellU 1, cellU 1,
      cellU 0, cellU 0, cellU 0, cellU 0, cellU 0, cellU 0, cellU 0, cellU 0,
      cellU 2, cellU 3, cellU 3, cellU 3, cellU 3, cellU 3, cellU 3, cellU 2,
      cellU 1, cellU 0, cellU 0, cellU 0, cellUM, cellUM, cellUM, cellUM,
      cellUM, cellUM, cellUM, cellUM, cellU 1, cellU 0, cellU 0, cellU 0,
      cellU 2, cellU 3, cellU 3, cellU 3, cellU 3, cellU 3, cellU 3, cellU 2,
      cellU 2, cellU 2, cellU 3, cellU 2, cellU 0, cellU 0, cellU 0, cellU 0,
      cellU 0, cellU 0, cellU 0, cellU 0, cellU 2, cellUM, cellUM, cellUM,
      cellU 0, cellU 0, cellU 0, cellU 0, cellU 0, cellU 0, cellU 0, cellU 0,
      cellU 3, cellUM, cellC 5, cellC 2, cellU 0, cellU 0, cellU 0, cellU 0,
      cellU 0, cellU 0, cellU 0, cellU 0, cellU 2, cellUM, cellC 2, cellC 0]
    status := GameStatus.Started
    info := { elapsed_seconds := 0
              cleared := 5
              clear_total := 82
              status := GameStatus.Started }
    username := "player"
    posts := [] }

def game_over0 : GameState := { game0 with status := GameStatus.GameOver }

/-! ### Spec-side mine-count model

These two definitions are modelled from the specification text — "mines =
floor(rows*columns*probability)" with probabilities 0.15 / 0.25 / 0.35 — and
exist only to be compared against the mine count the code computes. -/

def spec_probability : Difficulty → Rat
  | Difficulty.Easy => 15 / 100
  | Difficulty.Normal => 25 / 100
  | Difficulty.Hard => 35 / 100

def spec_mine_count (rows columns : Int) (difficulty : Difficulty) : Int :=
  ⌊((rows * columns : Int) : Rat) * spec_probability difficulty⌋

/-! ### Generic list and fold lemmas -/

theorem foldl_preserve {α β : Type _} (f : β → α → β) (P : β → Prop) :
    ∀ (l : List α) (b : β), (∀ t x, x ∈ l → P t → P (f t x)) → P b →
      P (l.foldl f b)
  | [], _, _, hb => hb
  | x :: l, b, hf, hb =>
    foldl_preserve f P l (f b x)
      (fun t y hy => hf t y (List.mem_cons_of_mem _ hy))
      (hf b x (List.mem_cons_self _ _) hb)

theorem foldl_rel {α β : Type _} (R : β → β → Prop) (f : β → α → β)
    (hrefl : ∀ a, R a a) (htrans : ∀ a b c, R a b → R b c → R a c) :
    ∀ (l : List α) (b : β), (∀ t x, x ∈ l → R t (f t x)) → R b (l.foldl f b)
  | [], b, _ => hrefl b
  | x :: l, b, hf =>
    htrans _ _ _ (hf b x (List.mem_cons_self _ _))
      (foldl_rel R f hrefl htrans l (f b x)
        (fun t y hy => hf t y (List.mem_cons_of_mem _ hy)))

theorem foldl_transition {α β : Type _} (f : β → α → β) (P : β → Prop) :
    ∀ (l : List α) (b : β), ¬ P b → P (l.foldl f b) →
      ∃ l1 x l2, l = l1 ++ x :: l2 ∧ ¬ P (l1.foldl f b) ∧ P (f (l1.foldl f b) x)
  | [], _, hnb, hb => absurd hb hnb
  | x :: l, b, hnb, hb => by
    by_cases hx : P (f b x)
    · exact ⟨[], x, l, rfl, hnb, hx⟩
    · obtain ⟨l1, y, l2, he, h1, h2⟩ := foldl_transition f P l (f b x) hx hb
      exact ⟨x :: l1, y, l2, by rw [he, List.cons_append], h1, h2⟩

theorem countP_and_split {α : Type _} (p q : α → Bool) :
    ∀ l : List α,
      l.countP p =
        l.countP (fun x => p x && q x) + l.countP (fun x => p x && !q x)
  | [] => rfl
  | x :: l => by
    simp only [List.countP_cons, countP_and_split p q l]
    cases hp : p x <;> cases hq : q x <;> simp <;> omega

theorem countP_exchange {α : Type _} (p q : α → Bool) (l : List α)
    (h : l.countP p = l.countP q) (hx : ∃ x ∈ l, q x = true ∧ p x = false) :
    ∃ x ∈ l, p x = true ∧ q x = false := by
  have hsplit_p := countP_and_split p q l
  have hsplit_q := countP_and_split q p l
  have hcomm : l.countP (fun x => p x && q x) = l.countP (fun x => q x && p x) :=
    List.countP_congr fun x _ => by cases p x <;> cases q x <;> simp
  have hqan : 0 < l.countP (fun x => q x && !p x) := by
    rw [List.countP_pos_iff]
    obtain ⟨x, hmem, hq, hp⟩ := hx
    exact ⟨x, hmem, by simp [hq, hp]⟩
  have hpan : 0 < l.countP (fun x => p x && !q x) := by omega
  rw [List.countP_pos_iff] at hpan
  obtain ⟨x, hmem, hx⟩ := hpan
  refine ⟨x, hmem, ?_, ?_⟩ <;> revert hx <;> cases p x <;> cases q x <;> simp

theorem countP_le_of_pointwise {α : Type _} [Inhabited α] (p : α → Bool) :
    ∀ (l m : List α), l.length = m.length →
      (∀ i, i < l.length → p (l.getD i default) = true →
        p (m.getD i default) = true) →
      l.countP p ≤ m.countP p
  | [], [], _, _ => Nat.le_refl _
  | [], _ :: _, h, _ => by simp at h
  | _ :: _, [], h, _ => by simp at h
  | a :: l, b :: m, h, hp => by
    simp only [List.countP_cons]
    have hab : p a = true → p b = true := hp 0 (by simp)
    have hrest := countP_le_of_pointwise p l m (by simpa using h)
      (fun i hi => hp (i + 1) (by simpa using hi))
    cases ha : p a
    · cases p b <;> simp <;> omega
    · rw [hab ha]; omega

theorem countP_eq_of_pointwise {α : Type _} [Inhabited α] (p : α → Bool)
    (l m : List α) (h : l.length = m.length)
    (hp : ∀ i, i < l.length → p (l.getD i default) = p (m.getD i default)) :
    l.countP p = m.countP p :=
  Nat.le_antisymm
    (countP_le_of_pointwise p l m h fun i hi hh => (hp i hi).symm.trans hh)
    (countP_le_of_pointwise p m l h.symm fun i hi hh =>
      (hp i (h ▸ hi)).trans hh)

theorem countP_mem_le_length :
    ∀ (l : List Nat), l.Nodup → ∀ (excl : List Nat),
      (l.countP fun t => decide (t ∈ excl)) ≤ excl.length
  | [], _, _ => Nat.zero_le _
  | a :: l, hnd, excl => by
    obtain ⟨hal, hl⟩ := List.nodup_cons.mp hnd
    simp only [List.countP_cons]
    by_cases ha : a ∈ excl
    · have hcong : (l.countP fun t => decide (t ∈ excl)) =
          l.countP fun t => decide (t ∈ excl.erase a) :=
        List.countP_congr fun x hx => by
          have hxa : x ≠ a := fun he => hal (he ▸ hx)
          simp [List.mem_erase_of_ne hxa]
      have hrec := countP_mem_le_length l hl (excl.erase a)
      have hlen := List.length_erase_of_mem ha
      have hpos : 0 < excl.length := List.length_pos.mpr
        (List.ne_nil_of_mem ha)
      have hone : (if decide (a ∈ excl) = true then 1 else 0) = 1 := by simp [ha]
      rw [hcong, hone]
      omega
    · have hrec := countP_mem_le_length l hl excl
      have hzero : (if decide (a ∈ excl) = true then 1 else 0) = 0 := by simp [ha]
      rw [hzero]
      omega

theorem countP_range_getD {α : Type _} [Inhabited α] (p : α → Bool) :
    ∀ (l : List α),
      ((List.range l.length).countP fun i => p (l.getD i default)) = l.countP p
  | [] => rfl
  | a :: l => by
    rw [List.length_cons, List.range_succ_eq_map]
    simp only [List.countP_cons, List.countP_map]
    have : ((List.range l.length).countP
        ((fun i => p ((a :: l).getD i default)) ∘ (· + 1))) =
        (List.range l.length).countP fun i => p (l.getD i default) :=
      List.countP_congr fun x _ => by simp [Function.comp]
    rw [this, countP_range_getD p l]
    simp [Nat.add_comm]

/-! ### Basic facts about indexing and cell updates -/

theorem set_cell_state_rows (s : GameState) (r c : Int) (x : CellState) :
    (s.set_cell_state r c x).rows = s.rows := by
  unfold GameState.set_cell_state; split <;> rfl

theorem set_cell_state_columns (s : GameState) (r c : Int) (x : CellState) :
    (s.set_cell_state r c x).columns = s.columns := by
  unfold GameState.set_cell_state; split <;> rfl

theorem set_cell_state_mines (s : GameState) (r c : Int) (x : CellState) :
    (s.set_cell_state r c x).mines = s.mines := by
  unfold GameState.set_cell_state; split <;> rfl

theorem set_cell_state_cleared (s : GameState) (r c : Int) (x : CellState) :
    (s.set_cell_state r c x).cleared = s.cleared := by
  unfold GameState.set_cell_state; split <;> rfl

theorem set_cell_state_status (s : GameState) (r c : Int) (x : CellState) :
    (s.set_cell_state r c x).status = s.status := by
  unfold GameState.set_cell_state; split <;> rfl

theorem set_cell_state_info (s : GameState) (r c : Int) (x : CellState) :
    (s.set_cell_state r c x).info = s.info := by
  unfold GameState.set_cell_state; split <;> rfl

theorem set_cell_state_posts (s : GameState) (r c : Int) (x : CellState) :
    (s.set_cell_state r c x).posts = s.posts := by
  unfold GameState.set_cell_state; split <;> rfl

theorem set_cell_state_username (s : GameState) (r c : Int) (x : CellState) :
    (s.set_cell_state r c x).username = s.username := by
  unfold GameState.set_cell_state; split <;> rfl

theorem set_cell_state_difficulty (s : GameState) (r c : Int) (x : CellState) :
    (s.set_cell_state r c x).difficulty = s.difficulty := by
  unfold GameState.set_cell_state; split <;> rfl

theorem set_cell_state_size (s : GameState) (r c : Int) (x : CellState) :
    (s.set_cell_state r c x).size = s.size := by
  unfold GameState.set_cell_state; split <;> rfl

theorem set_cell_state_length (s : GameState) (r c : Int) (x : CellState) :
    (s.set_cell_state r c x).cell_states.length = s.cell_states.length := by
  unfold GameState.set_cell_state; split <;> simp

theorem index_eq_some_iff {s : GameState} {r c : Int} {i : Nat} :
    s.index r c = some i ↔
      (0 ≤ r ∧ 0 ≤ c ∧ r < s.rows ∧ c < s.columns) ∧
        i = (r * s.columns + c).toNat := by
  unfold GameState.index
  split
  · rename_i h
    simp [h, eq_comm]
  · rename_i h
    simp [h]

theorem index_congr {s t : GameState} (hr : s.rows = t.rows)
    (hc : s.columns = t.columns) (r c : Int) : s.index r c = t.index r c := by
  unfold GameState.index
  rw [hr, hc]

theorem get_cell_state_congr {s t : GameState} (hr : s.rows = t.rows)
    (hc : s.columns = t.columns) (hcs : s.cell_states = t.cell_states)
    (r c : Int) : s.get_cell_state r c = t.get_cell_state r c := by
  unfold GameState.get_cell_state
  rw [index_congr hr hc, hcs]

theorem index_lt_length {s : GameState} {r c : Int} {i : Nat}
    (hlen : s.cell_states.length = (s.rows * s.columns).toNat)
    (h : s.index r c = some i) : i < s.cell_states.length := by
  obtain ⟨⟨hr0, hc0, hr, hc⟩, hi⟩ := index_eq_some_iff.mp h
  have hcpos : 0 < s.columns := lt_of_le_of_lt hc0 hc
  have h1 : 0 ≤ r * s.columns + c :=
    add_nonneg (mul_nonneg hr0 (le_of_lt hcpos)) hc0
  have h2 : r * s.columns + c < s.rows * s.columns := by
    have hr1 : r ≤ s.rows - 1 := by omega
    have : r * s.columns ≤ (s.rows - 1) * s.columns :=
      mul_le_mul_of_nonneg_right hr1 (le_of_lt hcpos)
    have hexp : (s.rows - 1) * s.columns = s.rows * s.columns - s.columns := by
      ring
    omega
  rw [hlen, hi]
  omega

theorem index_inj {s : GameState} {r c r2 c2 : Int} {i : Nat}
    (h1 : s.index r c = some i) (h2 : s.index r2 c2 = some i) :
    r = r2 ∧ c = c2 := by
  obtain ⟨⟨hr0, hc0, hr, hc⟩, hi⟩ := index_eq_some_iff.mp h1
  obtain ⟨⟨hr20, hc20, hr2, hc2⟩, hi2⟩ := index_eq_some_iff.mp h2
  have hcpos : 0 < s.columns := lt_of_le_of_lt hc0 hc
  have hnn : 0 ≤ r * s.columns + c :=
    add_nonneg (mul_nonneg hr0 (le_of_lt hcpos)) hc0
  have hnn2 : 0 ≤ r2 * s.columns + c2 :=
    add_nonneg (mul_nonneg hr20 (le_of_lt hcpos)) hc20
  have heq : r * s.columns + c = r2 * s.columns + c2 := by
    have := hi.symm.trans hi2
    omega
  have hkey : (r - r2) * s.columns = c2 - c := by linear_combination heq
  have hreq : r = r2 := by
    rcases lt_trichotomy r r2 with hlt | heqr | hgt
    · have hle : r - r2 ≤ -1 := by omega
      have := mul_le_mul_of_nonneg_right hle (le_of_lt hcpos)
      have hneg : (-1 : Int) * s.columns = -s.columns := by ring
      omega
    · exact heqr
    · have hle : (1 : Int) ≤ r - r2 := by omega
      have := mul_le_mul_of_nonneg_right hle (le_of_lt hcpos)
      have hone : (1 : Int) * s.columns = s.columns := by ring
      omega
  refine ⟨hreq, ?_⟩
  rw [hreq] at heq
  omega

theorem get_cell_state_elim {s : GameState} {r c : Int} {cell : CellState}
    (h : s.get_cell_state r c = some cell) :
    ∃ i, s.index r c = some i ∧ s.cell_states.get? i = some cell ∧
      i < s.cell_states.length ∧ s.cell_states.getD i default = cell := by
  unfold GameState.get_cell_state at h
  cases hidx : s.index r c with
  | none => rw [hidx] at h; simp at h
  | some i =>
    rw [hidx] at h
    simp only [Option.some_bind] at h
    have hlt : i < s.cell_states.length := by
      rw [List.get?_eq_getElem?] at h
      exact (List.getElem?_eq_some_iff.mp h).1
    refine ⟨i, rfl, h, hlt, ?_⟩
    rw [List.getD_eq_get?, h]
    rfl

theorem get_set_self {s : GameState} {r c : Int} {cell : CellState}
    (h : s.get_cell_state r c = some cell) (x : CellState) :
    (s.set_cell_state r c x).get_cell_state r c = some x := by
  obtain ⟨i, hidx, _, hlt, _⟩ := get_cell_state_elim h
  unfold GameState.get_cell_state GameState.set_cell_state
  rw [hidx]
  have hidx2 : ({ s with cell_states := s.cell_states.set i x } :
      GameState).index r c = some i := hidx
  rw [hidx2]
  simp only [Option.some_bind, List.get?_eq_getElem?]
  exact List.getElem?_set_self hlt

theorem get_set_of_ne {s : GameState} {r c r2 c2 : Int} (x : CellState)
    (hne : ¬ (r = r2 ∧ c = c2)) :
    (s.set_cell_state r c x).get_cell_state r2 c2 = s.get_cell_state r2 c2 := by
  unfold GameState.set_cell_state
  cases hidx : s.index r c with
  | none => rfl
  | some i =>
    unfold GameState.get_cell_state
    have hidx2 : ({ s with cell_states := s.cell_states.set i x } :
        GameState).index r2 c2 = s.index r2 c2 := rfl
    rw [hidx2]
    cases hidx3 : s.index r2 c2 with
    | none => rfl
    | some j =>
      simp only [Option.some_bind]
      have hij : i ≠ j := by
        intro he
        exact hne (index_inj hidx (he ▸ hidx3))
      simp only [List.get?_eq_getElem?]
      exact List.getElem?_set_ne hij

/-! ### The effect of digging: the `DigStep` relation -/

/-- A cell's interaction may only move from `Untouched` to `Cleared` while
digging. -/
def InterStep (a b : CellInteraction) : Prop :=
  a = b ∨ (a = CellInteraction.Untouched ∧ b = CellInteraction.Cleared)

theorem interStep_refl (a : CellInteraction) : InterStep a a := Or.inl (Eq.refl a)

theorem interStep_trans {a b c : CellInteraction} (h1 : InterStep a b)
    (h2 : InterStep b c) : InterStep a c := by
  rcases h1 with h1 | ⟨h1, h1'⟩ <;> rcases h2 with h2 | ⟨h2, h2'⟩ <;>
    simp_all [InterStep]

/-- Everything `dig_inner` preserves or changes monotonically: all fields but
`cell_states`, `cleared`, `status` are fixed; cell kinds are fixed and
interactions only go `Untouched → Cleared`; `status` can only change to
`GameOver`; and the `cleared` counter moves in lockstep with the count of
cleared non-mine cells. -/
def DigStep (s t : GameState) : Prop :=
  t.rows = s.rows ∧ t.columns = s.columns ∧ t.mines = s.mines ∧
  t.posts = s.posts ∧ t.info = s.info ∧ t.username = s.username ∧
  t.difficulty = s.difficulty ∧ t.size = s.size ∧
  t.cell_states.length = s.cell_states.length ∧
  (∀ i, i < s.cell_states.length →
    (t.cell_states.getD i default).kind = (s.cell_states.getD i default).kind ∧
      InterStep (s.cell_states.getD i default).interaction
        (t.cell_states.getD i default).interaction) ∧
  (t.status = s.status ∨ t.status = GameStatus.GameOver) ∧
  t.cleared + (count_cleared_clear s : Int) =
    s.cleared + count_cleared_clear t

theorem digStep_refl (s : GameState) : DigStep s s := by
  refine ⟨rfl, rfl, rfl, rfl, rfl, rfl, rfl, rfl, rfl, ?_, Or.inl rfl, rfl⟩
  exact fun i _ => ⟨rfl, interStep_refl _⟩

theorem digStep_trans {s t u : GameState} (h1 : DigStep s t)
    (h2 : DigStep t u) : DigStep s u := by
  obtain ⟨a1, b1, c1, d1, e1, f1, g1, i1, j1, k1, l1, m1⟩ := h1
  obtain ⟨a2, b2, c2, d2, e2, f2, g2, i2, j2, k2, l2, m2⟩ := h2
  refine ⟨a2.trans a1, b2.trans b1, c2.trans c1, d2.trans d1, e2.trans e1,
    f2.trans f1, g2.trans g1, i2.trans i1, j2.trans j1, ?_, ?_, by omega⟩
  · intro i hi
    obtain ⟨hk1, hi1⟩ := k1 i hi
    obtain ⟨hk2, hi2⟩ := k2 i (j1 ▸ hi)
    exact ⟨hk2.trans hk1, interStep_trans hi1 hi2⟩
  · rcases l2 with l2 | l2
    · rw [l2]; exact l1
    · exact Or.inr l2

theorem getD_set_self {α : Type _} [Inhabited α] {l : List α} {i : Nat}
    (h : i < l.length) (x : α) : (l.set i x).getD i default = x := by
  simp [List.getD_eq_getElem?_getD, List.getElem?_set_self h]

theorem getD_set_ne {α : Type _} [Inhabited α] {l : List α} {i j : Nat}
    (h : i ≠ j) (x : α) : (l.set i x).getD j default = l.getD j default := by
  simp [List.getD_eq_getElem?_getD, List.getElem?_set_ne h]

/-- Effect of clearing one untouched cell on the cell array and the
cleared-and-clear count. -/
theorem set_cleared_spec {s : GameState} {r c : Int} {cell : CellState}
    (h : s.get_cell_state r c = some cell)
    (hu : cell.interaction = CellInteraction.Untouched) :
    (∀ i, i < s.cell_states.length →
      (((s.set_cell_state r c
          { cell with interaction := CellInteraction.Cleared }).cell_states.getD
            i default).kind = (s.cell_states.getD i default).kind ∧
        InterStep (s.cell_states.getD i default).interaction
          (((s.set_cell_state r c
            { cell with interaction := CellInteraction.Cleared }).cell_states.getD
              i default)).interaction)) ∧
    count_cleared_clear (s.set_cell_state r c
        { cell with interaction := CellInteraction.Cleared }) =
      count_cleared_clear s + (if cell.is_clear then 1 else 0) := by
  obtain ⟨i, hidx, hget, hlt, hgetD⟩ := get_cell_state_elim h
  have hcells : (s.set_cell_state r c
      { cell with interaction := CellInteraction.Cleared }).cell_states =
      s.cell_states.set i { cell with interaction := CellInteraction.Cleared } := by
    unfold GameState.set_cell_state
    rw [hidx]
  constructor
  · intro j hj
    rw [hcells]
    by_cases hij : i = j
    · subst hij
      rw [getD_set_self hlt, hgetD, hu]
      exact ⟨rfl, Or.inr ⟨rfl, rfl⟩⟩
    · rw [getD_set_ne hij]
      exact ⟨rfl, interStep_refl _⟩
  · unfold count_cleared_clear
    rw [hcells]
    have hgetE : s.cell_states[i] = cell := by
      have := List.getElem?_eq_some_iff.mp
        ((List.get?_eq_getElem? s.cell_states i) ▸ hget)
      exact this.2
    rw [List.countP_set _ _ _ _ hlt, hgetE]
    have hold : (decide (cell.interaction = CellInteraction.Cleared) &&
        cell.is_clear) = false := by
      rw [hu]; simp
    have hnew : (decide (({ cell with
        interaction := CellInteraction.Cleared } : CellState).interaction =
          CellInteraction.Cleared) &&
        ({ cell with interaction := CellInteraction.Cleared } :
          CellState).is_clear) = cell.is_clear := by
      simp [CellState.is_clear]
    rw [hold, hnew]
    cases hcl : cell.is_clear <;> simp

/-- The cascade fold performed in the `Untouched`/`Clear(0)` branch of
`dig_inner`. -/
def cascade_step (fuel : Nat) (row column : Int) :
    GameState → Int × Int → GameState :=
  fun t off => GameState.dig_innerF fuel t (row + off.1) (column + off.2)

/-- The chord fold performed in the `Cleared` branch of `dig_inner`: dig each
neighbour that is currently untouched. -/
def chord_step (fuel : Nat) (row column : Int) :
    GameState → Int × Int → GameState :=
  fun t off =>
    match t.get_cell_state (row + off.1) (column + off.2) with
    | some ncell =>
      if ncell.is_untouched then
        GameState.dig_innerF fuel t (row + off.1) (column + off.2)
      else t
    | none => t

theorem dig_innerF_zero (s : GameState) (row column : Int) :
    GameState.dig_innerF 0 s row column = s := rfl

theorem dig_innerF_none {s : GameState} {row column : Int} (fuel : Nat)
    (hget : s.get_cell_state row column = none) :
    GameState.dig_innerF (fuel + 1) s row column = s := by
  unfold GameState.dig_innerF
  rw [hget]

theorem dig_innerF_flagged {s : GameState} {row column : Int}
    {cell : CellState} (fuel : Nat)
    (hget : s.get_cell_state row column = some cell)
    (hi : cell.interaction = CellInteraction.Flagged) :
    GameState.dig_innerF (fuel + 1) s row column = s := by
  obtain ⟨inter, kind⟩ := cell
  cases hi
  unfold GameState.dig_innerF
  rw [hget]

theorem dig_innerF_untouched_mine {s : GameState} {row column : Int}
    {cell : CellState} (fuel : Nat)
    (hget : s.get_cell_state row column = some cell)
    (hi : cell.interaction = CellInteraction.Untouched)
    (hk : cell.kind = CellKind.Mine) :
    GameState.dig_innerF (fuel + 1) s row column =
      { s.set_cell_state row column
          { cell with interaction := CellInteraction.Cleared } with
        status := GameStatus.GameOver } := by
  obtain ⟨inter, kind⟩ := cell
  cases hi
  cases hk
  unfold GameState.dig_innerF
  rw [hget]

theorem dig_innerF_untouched_zero {s : GameState} {row column : Int}
    {cell : CellState} (fuel : Nat)
    (hget : s.get_cell_state row column = some cell)
    (hi : cell.interaction = CellInteraction.Untouched)
    (hk : cell.kind = CellKind.Clear 0) :
    GameState.dig_innerF (fuel + 1) s row column =
      (fun s2 => { s2 with cleared := s2.cleared + 1 })
        (ADJACENTS.foldl (cascade_step fuel row column)
          (s.set_cell_state row column
            { cell with interaction := CellInteraction.Cleared })) := by
  obtain ⟨inter, kind⟩ := cell
  cases hi
  cases hk
  unfold GameState.dig_innerF
  rw [hget]
  rfl

theorem dig_innerF_untouched_pos {s : GameState} {row column : Int}
    {cell : CellState} {n : Nat} (fuel : Nat)
    (hget : s.get_cell_state row column = some cell)
    (hi : cell.interaction = CellInteraction.Untouched)
    (hk : cell.kind = CellKind.Clear (n + 1)) :
    GameState.dig_innerF (fuel + 1) s row column =
      { s.set_cell_state row column
          { cell with interaction := CellInteraction.Cleared } with
        cleared := (s.set_cell_state row column
          { cell with interaction := CellInteraction.Cleared }).cleared + 1 } := by
  obtain ⟨inter, kind⟩ := cell
  cases hi
  cases hk
  unfold GameState.dig_innerF
  rw [hget]

theorem dig_innerF_cleared_mine {s : GameState} {row column : Int}
    {cell : CellState} (fuel : Nat)
    (hget : s.get_cell_state row column = some cell)
    (hi : cell.interaction = CellInteraction.Cleared)
    (hk : cell.kind = CellKind.Mine) :
    GameState.dig_innerF (fuel + 1) s row column = s := by
  obtain ⟨inter, kind⟩ := cell
  cases hi
  cases hk
  unfold GameState.dig_innerF
  rw [hget]

theorem dig_innerF_chord {s : GameState} {row column : Int}
    {cell : CellState} {n : Nat} (fuel : Nat)
    (hget : s.get_cell_state row column = some cell)
    (hi : cell.interaction = CellInteraction.Cleared)
    (hk : cell.kind = CellKind.Clear n)
    (hf : n = s.adjacent_flags row column) :
    GameState.dig_innerF (fuel + 1) s row column =
      ADJACENTS.foldl (chord_step fuel row column) s := by
  obtain ⟨inter, kind⟩ := cell
  cases hi
  cases hk
  unfold GameState.dig_innerF
  rw [hget]
  simp only [hf, if_pos]
  rfl

theorem dig_innerF_chord_ne {s : GameState} {row column : Int}
    {cell : CellState} {n : Nat} (fuel : Nat)
    (hget : s.get_cell_state row column = some cell)
    (hi : cell.interaction = CellInteraction.Cleared)
    (hk : cell.kind = CellKind.Clear n)
    (hf : n ≠ s.adjacent_flags row column) :
    GameState.dig_innerF (fuel + 1) s row column = s := by
  obtain ⟨inter, kind⟩ := cell
  cases hi
  cases hk
  unfold GameState.dig_innerF
  rw [hget]
  simp only [hf, if_neg]
  rfl

theorem dig_innerF_digStep :
    ∀ (fuel : Nat) (s : GameState) (row column : Int),
      DigStep s (GameState.dig_innerF fuel s row column) := by
  intro fuel
  induction fuel with
  | zero =>
    intro s row column
    rw [dig_innerF_zero]
    exact digStep_refl s
  | succ fuel ih =>
    intro s row column
    cases hget : s.get_cell_state row column with
    | none =>
      rw [dig_innerF_none fuel hget]
      exact digStep_refl s
    | some cell =>
      cases hi : cell.interaction with
      | Flagged =>
        rw [dig_innerF_flagged fuel hget hi]
        exact digStep_refl s
      | Cleared =>
        cases hk : cell.kind with
        | Mine =>
          rw [dig_innerF_cleared_mine fuel hget hi hk]
          exact digStep_refl s
        | Clear n =>
          by_cases hf : n = s.adjacent_flags row column
          · rw [dig_innerF_chord fuel hget hi hk hf]
            refine foldl_rel DigStep (chord_step fuel row column)
              digStep_refl (fun _ _ _ => digStep_trans) ADJACENTS s ?_
            intro t off _
            show DigStep t (chord_step fuel row column t off)
            unfold chord_step
            cases hn : t.get_cell_state (row + off.1) (column + off.2) with
            | none => exact digStep_refl t
            | some ncell =>
              show DigStep t (if ncell.is_untouched = true then
                GameState.dig_innerF fuel t (row + off.1) (column + off.2) else t)
              by_cases hu : ncell.is_untouched = true
              · rw [if_pos hu]
                exact ih t (row + off.1) (column + off.2)
              · rw [if_neg hu]
                exact digStep_refl t
          · rw [dig_innerF_chord_ne fuel hget hi hk hf]
            exact digStep_refl s
      | Untouched =>
        obtain ⟨hpoint, hcount⟩ := set_cleared_spec hget hi
        cases hk : cell.kind with
        | Mine =>
          rw [dig_innerF_untouched_mine fuel hget hi hk]
          have hclear : cell.is_clear = false := by
            simp [CellState.is_clear, hk]
          rw [hclear] at hcount
          simp only [if_neg Bool.false_ne_true, Nat.add_zero] at hcount
          refine ⟨set_cell_state_rows s row column _,
            set_cell_state_columns s row column _,
            set_cell_state_mines s row column _,
            set_cell_state_posts s row column _,
            set_cell_state_info s row column _,
            set_cell_state_username s row column _,
            set_cell_state_difficulty s row column _,
            set_cell_state_size s row column _,
            set_cell_state_length s row column _,
            hpoint, Or.inr rfl, ?_⟩
          show (s.set_cell_state row column
              { cell with interaction := CellInteraction.Cleared }).cleared +
              (count_cleared_clear s : Int) =
            s.cleared + count_cleared_clear (s.set_cell_state row column
              { cell with interaction := CellInteraction.Cleared })
          rw [set_cell_state_cleared, hcount]
        | Clear n =>
          have hclear : cell.is_clear = true := by
            simp [CellState.is_clear, hk]
          rw [hclear] at hcount
          simp only [if_pos] at hcount
          cases n with
          | succ m =>
            rw [dig_innerF_untouched_pos fuel hget hi hk]
            refine ⟨set_cell_state_rows s row column _,
              set_cell_state_columns s row column _,
              set_cell_state_mines s row column _,
              set_cell_state_posts s row column _,
              set_cell_state_info s row column _,
              set_cell_state_username s row column _,
              set_cell_state_difficulty s row column _,
              set_cell_state_size s row column _,
              set_cell_state_length s row column _,
              hpoint, Or.inl (set_cell_state_status s row column _), ?_⟩
            show ((s.set_cell_state row column
                { cell with interaction := CellInteraction.Cleared }).cleared + 1) +
                (count_cleared_clear s : Int) =
              s.cleared + count_cleared_clear (s.set_cell_state row column
                { cell with interaction := CellInteraction.Cleared })
            rw [set_cell_state_cleared, hcount]
            push_cast
            ring
          | zero =>
            rw [dig_innerF_untouched_zero fuel hget hi hk]
            have hstep : DigStep
                (s.set_cell_state row column
                  { cell with interaction := CellInteraction.Cleared })
                (ADJACENTS.foldl (cascade_step fuel row column)
                  (s.set_cell_state row column
                    { cell with interaction := CellInteraction.Cleared })) :=
              foldl_rel DigStep (cascade_step fuel row column)
                digStep_refl (fun _ _ _ => digStep_trans) ADJACENTS _
                (fun t off _ => ih t (row + off.1) (column + off.2))
            obtain ⟨ha, hb, hc, hd, he, hf2, hg, hh, hlen2, hpt2, hst2, hdl2⟩ :=
              hstep
            refine ⟨?_, ?_, ?_, ?_, ?_, ?_, ?_, ?_, ?_, ?_, ?_, ?_⟩
            · exact ha.trans (set_cell_state_rows s row column _)
            · exact hb.trans (set_cell_state_columns s row column _)
            · exact hc.trans (set_cell_state_mines s row column _)
            · exact hd.trans (set_cell_state_posts s row column _)
            · exact he.trans (set_cell_state_info s row column _)
            · exact hf2.trans (set_cell_state_username s row column _)
            · exact hg.trans (set_cell_state_difficulty s row column _)
            · exact hh.trans (set_cell_state_size s row column _)
            · exact hlen2.trans (set_cell_state_length s row column _)
            · intro i hilt
              obtain ⟨hk1, hi1⟩ := hpoint i hilt
              have hilt2 : i < (s.set_cell_state row column
                  { cell with interaction := CellInteraction.Cleared
                    }).cell_states.length := by
                rw [set_cell_state_length]; exact hilt
              obtain ⟨hk2, hi2⟩ := hpt2 i hilt2
              exact ⟨hk2.trans hk1, interStep_trans hi1 hi2⟩
            · rcases hst2 with hst2 | hst2
              · exact Or.inl (hst2.trans (set_cell_state_status s row column _))
              · exact Or.inr hst2
            · rw [set_cell_state_cleared, hcount] at hdl2
              show (ADJACENTS.foldl (cascade_step fuel row column)
                  (s.set_cell_state row column
                    { cell with interaction := CellInteraction.Cleared })).cleared
                  + 1 + (count_cleared_clear s : Int) =
                s.cleared + count_cleared_clear
                  (ADJACENTS.foldl (cascade_step fuel row column)
                    (s.set_cell_state row column
                      { cell with interaction := CellInteraction.Cleared }))
              push_cast at hdl2 ⊢
              omega

theorem dig_inner_digStep (s : GameState) (row column : Int) :
    DigStep s (s.dig_inner row column) :=
  dig_innerF_digStep _ s row column

theorem is_mine_congr {a b : CellState} (h : a.kind = b.kind) :
    a.is_mine = b.is_mine := by
  unfold CellState.is_mine
  rw [h]

theorem is_clear_congr {a b : CellState} (h : a.kind = b.kind) :
    a.is_clear = b.is_clear := by
  unfold CellState.is_clear
  rw [h]

theorem is_clear_eq_not_is_mine (a : CellState) : a.is_clear = !a.is_mine := by
  unfold CellState.is_clear CellState.is_mine
  cases a.kind <;> rfl

theorem interStep_is_flagged {cell cell' : CellState}
    (h : InterStep cell.interaction cell'.interaction) :
    cell'.is_flagged = cell.is_flagged := by
  unfold CellState.is_flagged
  rcases h with h | ⟨h1, h2⟩
  · rw [h]
  · rw [h1, h2]

theorem interStep_cleared_of {a b : CellInteraction} (h : InterStep a b)
    (ha : a = CellInteraction.Cleared) : b = CellInteraction.Cleared := by
  rcases h with h | ⟨h1, _⟩
  · rw [← h, ha]
  · rw [ha] at h1; cases h1

theorem interStep_untouched_back {a b : CellInteraction} (h : InterStep a b)
    (hb : b = CellInteraction.Untouched) : a = CellInteraction.Untouched := by
  rcases h with h | ⟨_, h2⟩
  · rw [h, hb]
  · rw [hb] at h2; cases h2

theorem digStep_get {s t : GameState} (h : DigStep s t) (r c : Int) :
    (s.get_cell_state r c = none → t.get_cell_state r c = none) ∧
    (∀ cell, s.get_cell_state r c = some cell →
      ∃ cell', t.get_cell_state r c = some cell' ∧ cell'.kind = cell.kind ∧
        InterStep cell.interaction cell'.interaction) := by
  obtain ⟨hr, hc, -, -, -, -, -, -, hlen, hpt, -, -⟩ := h
  have hidx : t.index r c = s.index r c := index_congr hr hc r c
  unfold GameState.get_cell_state
  rw [hidx]
  cases hi : s.index r c with
  | none => exact ⟨fun _ => rfl, fun cell hcell => by simp at hcell⟩
  | some i =>
    simp only [Option.some_bind]
    constructor
    · intro hnone
      rw [List.get?_eq_getElem?, List.getElem?_eq_none_iff] at hnone ⊢
      omega
    · intro cell hcell
      have hlt : i < s.cell_states.length := by
        rw [List.get?_eq_getElem?] at hcell
        exact (List.getElem?_eq_some_iff.mp hcell).1
      have hgetD : s.cell_states.getD i default = cell := by
        rw [List.getD_eq_getElem?_getD, ← List.get?_eq_getElem?, hcell]
        rfl
      obtain ⟨hk, hstep⟩ := hpt i hlt
      refine ⟨t.cell_states.getD i default, ?_, by rw [hk, hgetD],
        hgetD ▸ hstep⟩
      rw [List.get?_eq_getElem?, List.getD_eq_getElem?_getD]
      have hlt2 : i < t.cell_states.length := by omega
      rw [List.getElem?_eq_getElem hlt2]
      rfl

theorem digStep_get_back {s t : GameState} (h : DigStep s t) (r c : Int)
    (cell' : CellState) (hcell : t.get_cell_state r c = some cell') :
    ∃ cell, s.get_cell_state r c = some cell ∧ cell'.kind = cell.kind ∧
      InterStep cell.interaction cell'.interaction := by
  cases hs : s.get_cell_state r c with
  | none =>
    rw [(digStep_get h r c).1 hs] at hcell
    cases hcell
  | some cell =>
    obtain ⟨cell'', hcell'', hk, hstep⟩ := (digStep_get h r c).2 cell hs
    rw [hcell] at hcell''
    cases hcell''
    exact ⟨cell, rfl, hk, hstep⟩

theorem digStep_adjacent_flags {s t : GameState} (h : DigStep s t)
    (r c : Int) : t.adjacent_flags r c = s.adjacent_flags r c := by
  unfold GameState.adjacent_flags
  refine List.countP_congr fun off _ => ?_
  cases hs : s.get_cell_state (r + off.1) (c + off.2) with
  | none =>
    rw [(digStep_get h _ _).1 hs]
  | some cell =>
    obtain ⟨cell', hcell', hk, hstep⟩ := (digStep_get h _ _).2 cell hs
    rw [hcell']
    show cell'.is_flagged = true ↔ cell.is_flagged = true
    rw [interStep_is_flagged hstep]

theorem digStep_adjacent_mines {s t : GameState} (h : DigStep s t)
    (r c : Int) : t.adjacent_mines r c = s.adjacent_mines r c := by
  unfold GameState.adjacent_mines
  refine List.countP_congr fun off _ => ?_
  cases hs : s.get_cell_state (r + off.1) (c + off.2) with
  | none =>
    rw [(digStep_get h _ _).1 hs]
  | some cell =>
    obtain ⟨cell', hcell', hk, hstep⟩ := (digStep_get h _ _).2 cell hs
    rw [hcell']
    show cell'.is_mine = true ↔ cell.is_mine = true
    rw [is_mine_congr hk]

theorem digStep_kind_at {s t : GameState} (h : DigStep s t) (p : Int × Int) :
    kind_at t p = kind_at s p := by
  unfold kind_at
  cases hs : s.get_cell_state p.1 p.2 with
  | none =>
    rw [(digStep_get h _ _).1 hs]
  | some cell =>
    obtain ⟨cell', hcell', hk, _⟩ := (digStep_get h _ _).2 cell hs
    rw [hcell']
    exact hk

theorem digStep_accurate {s t : GameState} (h : DigStep s t)
    (ha : accurate s) : accurate t := by
  intro p hp
  have hpos : all_positions t.rows t.columns = all_positions s.rows s.columns := by
    rw [h.1, h.2.1]
  rw [hpos] at hp
  rcases ha p hp with hm | hcl
  · exact Or.inl ((digStep_kind_at h p).trans hm)
  · refine Or.inr (((digStep_kind_at h p).trans hcl).trans ?_)
    rw [digStep_adjacent_mines h]

theorem digStep_count_mines {s t : GameState} (h : DigStep s t) :
    count_mines t = count_mines s := by
  unfold count_mines
  refine countP_eq_of_pointwise _ t.cell_states s.cell_states
    h.2.2.2.2.2.2.2.2.1 fun i hi => ?_
  have hi2 : i < s.cell_states.length := by
    have := h.2.2.2.2.2.2.2.2.1
    omega
  exact is_mine_congr (h.2.2.2.2.2.2.2.2.2.1 i hi2).1

theorem digStep_countCC_le {s t : GameState} (h : DigStep s t) :
    count_cleared_clear s ≤ count_cleared_clear t := by
  unfold count_cleared_clear
  refine countP_le_of_pointwise _ s.cell_states t.cell_states
    h.2.2.2.2.2.2.2.2.1.symm fun i hi hp => ?_
  obtain ⟨hk, hstep⟩ := h.2.2.2.2.2.2.2.2.2.1 i hi
  rw [Bool.and_eq_true, decide_eq_true_iff] at hp ⊢
  exact ⟨interStep_cleared_of hstep hp.1,
    (is_clear_congr hk).symm ▸ hp.2⟩

theorem digStep_cleared_le {s t : GameState} (h : DigStep s t) :
    s.cleared ≤ t.cleared := by
  have hdelta := h.2.2.2.2.2.2.2.2.2.2.2
  have hle := digStep_countCC_le h
  omega

theorem getD_lt {α : Type _} [Inhabited α] {l : List α} {i : Nat}
    (h : i < l.length) : l.getD i default = l[i] := by
  simp [List.getD_eq_getElem?_getD, List.getElem?_eq_getElem h]

theorem digStep_bad_flag {s t : GameState} (h : DigStep s t)
    (hb : bad_flag s) : bad_flag t := by
  obtain ⟨cell, hmem, hfl, hcl⟩ := hb
  obtain ⟨i, hlt, hEq⟩ := List.mem_iff_getElem.mp hmem
  obtain ⟨hk, hstep⟩ := h.2.2.2.2.2.2.2.2.2.1 i hlt
  have hsd : s.cell_states.getD i default = cell := by rw [getD_lt hlt, hEq]
  rw [hsd] at hk hstep
  have hlt2 : i < t.cell_states.length := by
    have := h.2.2.2.2.2.2.2.2.1
    omega
  refine ⟨t.cell_states.getD i default, ?_, ?_, ?_⟩
  · rw [getD_lt hlt2]
    exact List.getElem_mem hlt2
  · rw [interStep_is_flagged hstep]
    exact hfl
  · rw [is_clear_congr hk]
    exact hcl

theorem mem_all_positions {rows columns : Int} {p : Int × Int} :
    p ∈ all_positions rows columns ↔
      0 ≤ p.1 ∧ p.1 < rows ∧ 0 ≤ p.2 ∧ p.2 < columns := by
  obtain ⟨a, b⟩ := p
  constructor
  · intro hmem
    obtain ⟨r, hr, hmem2⟩ := List.mem_flatMap.mp hmem
    obtain ⟨c, hc, heq⟩ := List.mem_map.mp hmem2
    rw [List.mem_range] at hr hc
    have h1 : (r : Int) = a := congrArg Prod.fst heq
    have h2 : (c : Int) = b := congrArg Prod.snd heq
    refine ⟨by omega, by omega, by omega, by omega⟩
  · rintro ⟨h1, h2, h3, h4⟩
    refine List.mem_flatMap.mpr ⟨a.toNat, List.mem_range.mpr (by omega),
      List.mem_map.mpr ⟨b.toNat, List.mem_range.mpr (by omega), ?_⟩⟩
    have e1 : Int.ofNat a.toNat = a := Int.toNat_of_nonneg h1
    have e2 : Int.ofNat b.toNat = b := Int.toNat_of_nonneg h3
    rw [e1, e2]

theorem get_mem_all_positions {s : GameState} {r c : Int} {cell : CellState}
    (hget : s.get_cell_state r c = some cell) :
    (r, c) ∈ all_positions s.rows s.columns := by
  unfold GameState.get_cell_state at hget
  cases hidx : s.index r c with
  | none => rw [hidx] at hget; cases hget
  | some i =>
    obtain ⟨⟨h1, h2, h3, h4⟩, -⟩ := index_eq_some_iff.mp hidx
    exact mem_all_positions.mpr ⟨h1, h3, h2, h4⟩

theorem kind_at_of_get {s : GameState} {r c : Int} {cell : CellState}
    (hget : s.get_cell_state r c = some cell) :
    kind_at s (r, c) = cell.kind := by
  unfold kind_at
  rw [show ((r, c) : Int × Int).1 = r from rfl,
    show ((r, c) : Int × Int).2 = c from rfl, hget]
  rfl

theorem get_mem_cells {s : GameState} {r c : Int} {cell : CellState}
    (hget : s.get_cell_state r c = some cell) : cell ∈ s.cell_states := by
  obtain ⟨i, -, hget?, -, -⟩ := get_cell_state_elim hget
  exact List.get?_mem hget?

/-- If the flag count around a cell equals the mine count and some adjacent
mine is still untouched, then some adjacent non-mine cell carries a flag:
there is a misplaced flag. -/
theorem flags_mines_pigeonhole {s : GameState} {row column : Int}
    (heq : s.adjacent_flags row column = s.adjacent_mines row column)
    (hex : ∃ off ∈ ADJACENTS, ∃ mcell,
      s.get_cell_state (row + off.1) (column + off.2) = some mcell ∧
        mcell.is_mine = true ∧ mcell.is_untouched = true) :
    bad_flag s := by
  unfold GameState.adjacent_flags GameState.adjacent_mines at heq
  obtain ⟨off, hoff, mcell, hget, hmine, huntouched⟩ := hex
  have hxq : ∃ x ∈ ADJACENTS,
      (fun off : Int × Int =>
        match s.get_cell_state (row + off.1) (column + off.2) with
        | some cell => cell.is_mine
        | none => false) x = true ∧
      (fun off : Int × Int =>
        match s.get_cell_state (row + off.1) (column + off.2) with
        | some cell => cell.is_flagged
        | none => false) x = false := by
    refine ⟨off, hoff, ?_, ?_⟩
    · show (match s.get_cell_state (row + off.1) (column + off.2) with
        | some cell => cell.is_mine
        | none => false) = true
      rw [hget]
      exact hmine
    · show (match s.get_cell_state (row + off.1) (column + off.2) with
        | some cell => cell.is_flagged
        | none => false) = false
      rw [hget]
      show mcell.is_flagged = false
      unfold CellState.is_flagged
      unfold CellState.is_untouched at huntouched
      cases hin : mcell.interaction <;> rw [hin] at huntouched <;> simp_all
  obtain ⟨x, hx, hp, hq⟩ := countP_exchange _ _ ADJACENTS heq hxq
  have hp2 : (match s.get_cell_state (row + x.1) (column + x.2) with
      | some cell => cell.is_flagged
      | none => false) = true := hp
  have hq2 : (match s.get_cell_state (row + x.1) (column + x.2) with
      | some cell => cell.is_mine
      | none => false) = false := hq
  cases hget2 : s.get_cell_state (row + x.1) (column + x.2) with
  | none => rw [hget2] at hp2; cases hp2
  | some fcell =>
    rw [hget2] at hp2 hq2
    refine ⟨fcell, get_mem_cells hget2, hp2, ?_⟩
    rw [is_clear_eq_not_is_mine]
    have hm : fcell.is_mine = false := hq2
    rw [hm]
    rfl

theorem chord_step_eq_dig {fuel : Nat} {row column : Int} {t : GameState}
    {off : Int × Int} {ncell : CellState}
    (hn : t.get_cell_state (row + off.1) (column + off.2) = some ncell)
    (hu : ncell.is_untouched = true) :
    chord_step fuel row column t off =
      GameState.dig_innerF fuel t (row + off.1) (column + off.2) := by
  unfold chord_step
  rw [hn]
  show (if ncell.is_untouched = true then
    GameState.dig_innerF fuel t (row + off.1) (column + off.2) else t) = _
  rw [if_pos hu]

theorem chord_step_digStep (fuel : Nat) (row column : Int) (t : GameState)
    (off : Int × Int) : DigStep t (chord_step fuel row column t off) := by
  unfold chord_step
  cases hn : t.get_cell_state (row + off.1) (column + off.2) with
  | none => exact digStep_refl t
  | some ncell =>
    show DigStep t (if ncell.is_untouched = true then
      GameState.dig_innerF fuel t (row + off.1) (column + off.2) else t)
    by_cases hu : ncell.is_untouched = true
    · rw [if_pos hu]
      exact dig_innerF_digStep fuel t _ _
    · rw [if_neg hu]
      exact digStep_refl t

theorem cascade_step_digStep (fuel : Nat) (row column : Int) (t : GameState)
    (off : Int × Int) : DigStep t (cascade_step fuel row column t off) :=
  dig_innerF_digStep fuel t _ _

theorem get_set_kind {s : GameState} {r c : Int} {cell : CellState}
    (hget : s.get_cell_state r c = some cell) (j : CellInteraction)
    (a b : Int) :
    ((s.set_cell_state r c { cell with interaction := j }).get_cell_state a b
      ).map CellState.kind = (s.get_cell_state a b).map CellState.kind := by
  by_cases hq : r = a ∧ c = b
  · obtain ⟨h1, h2⟩ := hq
    subst h1; subst h2
    rw [get_set_self hget, hget]
    rfl
  · rw [get_set_of_ne _ hq]

theorem kind_at_set {s : GameState} {r c : Int} {cell : CellState}
    (hget : s.get_cell_state r c = some cell) (j : CellInteraction)
    (q : Int × Int) :
    kind_at (s.set_cell_state r c { cell with interaction := j }) q =
      kind_at s q := by
  unfold kind_at
  have hmap := get_set_kind hget j q.1 q.2
  cases h1 : (s.set_cell_state r c
      { cell with interaction := j }).get_cell_state q.1 q.2 with
  | none =>
    cases h2 : s.get_cell_state q.1 q.2 with
    | none => rfl
    | some c2 => rw [h1, h2] at hmap; cases hmap
  | some c1 =>
    cases h2 : s.get_cell_state q.1 q.2 with
    | none => rw [h1, h2] at hmap; cases hmap
    | some c2 =>
      rw [h1, h2] at hmap
      show c1.kind = c2.kind
      exact Option.some.inj hmap

theorem adjacent_mines_set {s : GameState} {r c : Int} {cell : CellState}
    (hget : s.get_cell_state r c = some cell) (j : CellInteraction)
    (a b : Int) :
    (s.set_cell_state r c { cell with interaction := j }).adjacent_mines a b =
      s.adjacent_mines a b := by
  unfold GameState.adjacent_mines
  refine List.countP_congr fun off _ => ?_
  have hmap := get_set_kind hget j (a + off.1) (b + off.2)
  cases h1 : (s.set_cell_state r c
      { cell with interaction := j }).get_cell_state (a + off.1) (b + off.2) with
  | none =>
    cases h2 : s.get_cell_state (a + off.1) (b + off.2) with
    | none => rfl
    | some c2 => rw [h1, h2] at hmap; cases hmap
  | some c1 =>
    cases h2 : s.get_cell_state (a + off.1) (b + off.2) with
    | none => rw [h1, h2] at hmap; cases hmap
    | some c2 =>
      rw [h1, h2] at hmap
      show c1.is_mine = true ↔ c2.is_mine = true
      rw [is_mine_congr (Option.some.inj hmap)]

/-- Writing only the interaction of one cell preserves accuracy. -/
theorem accurate_set_interaction {s : GameState} {r c : Int}
    {cell : CellState} (hget : s.get_cell_state r c = some cell)
    (j : CellInteraction) (ha : accurate s) :
    accurate (s.set_cell_state r c { cell with interaction := j }) := by
  intro p hp
  have hpos : all_positions
      (s.set_cell_state r c { cell with interaction := j }).rows
      (s.set_cell_state r c { cell with interaction := j }).columns =
      all_positions s.rows s.columns := by
    rw [set_cell_state_rows, set_cell_state_columns]
  rw [hpos] at hp
  rcases ha p hp with hm | hcl
  · exact Or.inl ((kind_at_set hget j p).trans hm)
  · refine Or.inr (((kind_at_set hget j p).trans hcl).trans ?_)
    rw [adjacent_mines_set hget j]

theorem chord_step_eq_id_none {fuel : Nat} {row column : Int}
    {t : GameState} {off : Int × Int}
    (hn : t.get_cell_state (row + off.1) (column + off.2) = none) :
    chord_step fuel row column t off = t := by
  unfold chord_step
  rw [hn]

theorem chord_step_eq_id_not {fuel : Nat} {row column : Int}
    {t : GameState} {off : Int × Int} {ncell : CellState}
    (hn : t.get_cell_state (row + off.1) (column + off.2) = some ncell)
    (hu : ¬ ncell.is_untouched = true) :
    chord_step fuel row column t off = t := by
  unfold chord_step
  rw [hn]
  show (if ncell.is_untouched = true then _ else _) = _
  rw [if_neg hu]

theorem adjacents_ne_zero : ∀ x ∈ ADJACENTS, ¬(x.1 = 0 ∧ x.2 = 0) := by
  decide

theorem is_mine_of_kind {cell : CellState} (h : cell.kind = CellKind.Mine) :
    cell.is_mine = true := by
  unfold CellState.is_mine
  rw [h]

theorem is_untouched_of_interaction {cell : CellState}
    (h : cell.interaction = CellInteraction.Untouched) :
    cell.is_untouched = true := by
  unfold CellState.is_untouched
  rw [h]

/-- Shape of the induction hypothesis for the GameOver analysis at a given
fuel. -/
def GameoverIH (fuel : Nat) : Prop :=
  ∀ (s : GameState) (row column : Int),
    accurate s → s.status ≠ GameStatus.GameOver →
    (GameState.dig_innerF fuel s row column).status = GameStatus.GameOver →
    bad_flag (GameState.dig_innerF fuel s row column) ∨
    ((GameState.dig_innerF fuel s row column).cleared = s.cleared ∧
      ∃ cell, s.get_cell_state row column = some cell ∧
        cell.interaction = CellInteraction.Untouched ∧
        cell.kind = CellKind.Mine)

/-- If a chord fold around a cell whose flag count matches its true mine
count ends in GameOver, a misplaced flag is present in the result. -/
theorem gameover_fold_chord (fuel : Nat) (ih : GameoverIH fuel)
    (s : GameState) (row column : Int) (hacc : accurate s)
    (hns : s.status ≠ GameStatus.GameOver)
    (heq : s.adjacent_flags row column = s.adjacent_mines row column)
    (hgo : (ADJACENTS.foldl (chord_step fuel row column) s).status =
      GameStatus.GameOver) :
    bad_flag (ADJACENTS.foldl (chord_step fuel row column) s) := by
  obtain ⟨l1, x, l2, hsplit, h1, h2⟩ :=
    foldl_transition (chord_step fuel row column)
      (fun t => t.status = GameStatus.GameOver) ADJACENTS s hns hgo
  have hxmem : x ∈ ADJACENTS := by
    rw [hsplit]
    exact List.mem_append_right _ (List.mem_cons_self _ _)
  have hds1 : DigStep s (l1.foldl (chord_step fuel row column) s) :=
    foldl_rel DigStep _ digStep_refl (fun _ _ _ => digStep_trans) l1 s
      (fun t off _ => chord_step_digStep fuel row column t off)
  rw [hsplit, List.foldl_append, List.foldl_cons]
  cases hn : (l1.foldl (chord_step fuel row column) s).get_cell_state
      (row + x.1) (column + x.2) with
  | none =>
    exfalso
    rw [chord_step_eq_id_none hn] at h2
    exact h1 h2
  | some ncell =>
    by_cases hu : ncell.is_untouched = true
    case neg =>
      exfalso
      rw [chord_step_eq_id_not hn hu] at h2
      exact h1 h2
    case pos =>
      have hstep_eq := @chord_step_eq_dig fuel row column
        (l1.foldl (chord_step fuel row column) s) x ncell hn hu
      rw [hstep_eq] at h2 ⊢
      have hacc1 : accurate (l1.foldl (chord_step fuel row column) s) :=
        digStep_accurate hds1 hacc
      rcases ih _ (row + x.1) (column + x.2) hacc1 h1 h2 with hbf |
        ⟨-, cell1, hget1, hU1, hM1⟩
      · have hrest : DigStep
            (GameState.dig_innerF fuel
              (l1.foldl (chord_step fuel row column) s)
              (row + x.1) (column + x.2))
            (l2.foldl (chord_step fuel row column)
              (GameState.dig_innerF fuel
                (l1.foldl (chord_step fuel row column) s)
                (row + x.1) (column + x.2))) :=
          foldl_rel DigStep _ digStep_refl (fun _ _ _ => digStep_trans) l2 _
            (fun t off _ => chord_step_digStep fuel row column t off)
        exact digStep_bad_flag hrest hbf
      · obtain ⟨cell0, hget0, hk0, hstep0⟩ := digStep_get_back hds1 _ _ cell1 hget1
        have hU0 : cell0.interaction = CellInteraction.Untouched :=
          interStep_untouched_back hstep0 hU1
        have hM0 : cell0.kind = CellKind.Mine := by
          rw [← hk0]
          exact hM1
        have hbfs : bad_flag s :=
          flags_mines_pigeonhole heq
            ⟨x, hxmem, cell0, hget0, is_mine_of_kind hM0,
              is_untouched_of_interaction hU0⟩
        have hds_full : DigStep s
            (l2.foldl (chord_step fuel row column)
              (GameState.dig_innerF fuel
                (l1.foldl (chord_step fuel row column) s)
                (row + x.1) (column + x.2))) := by
          refine digStep_trans (digStep_trans hds1
            (dig_innerF_digStep fuel _ (row + x.1) (column + x.2))) ?_
          exact foldl_rel DigStep _ digStep_refl (fun _ _ _ => digStep_trans)
            l2 _ (fun t off _ => chord_step_digStep fuel row column t off)
        exact digStep_bad_flag hds_full hbfs

/-- If the cascade fold launched from a zero cell ends in GameOver, a
misplaced flag is present in the result (the cascade itself never digs a
mine, since no neighbour of the zero cell is a mine). -/
theorem gameover_fold_cascade (fuel : Nat) (ih : GameoverIH fuel)
    (s1 : GameState) (row column : Int) (hacc1 : accurate s1)
    (hns1 : s1.status ≠ GameStatus.GameOver)
    (hzero : s1.adjacent_mines row column = 0)
    (hgo : (ADJACENTS.foldl (cascade_step fuel row column) s1).status =
      GameStatus.GameOver) :
    bad_flag (ADJACENTS.foldl (cascade_step fuel row column) s1) := by
  obtain ⟨l1, x, l2, hsplit, h1, h2⟩ :=
    foldl_transition (cascade_step fuel row column)
      (fun t => t.status = GameStatus.GameOver) ADJACENTS s1 hns1 hgo
  have hxmem : x ∈ ADJACENTS := by
    rw [hsplit]
    exact List.mem_append_right _ (List.mem_cons_self _ _)
  have hds1 : DigStep s1 (l1.foldl (cascade_step fuel row column) s1) :=
    foldl_rel DigStep _ digStep_refl (fun _ _ _ => digStep_trans) l1 s1
      (fun t off _ => cascade_step_digStep fuel row column t off)
  rw [hsplit, List.foldl_append, List.foldl_cons]
  have h2' : (GameState.dig_innerF fuel
      (l1.foldl (cascade_step fuel row column) s1)
      (row + x.1) (column + x.2)).status = GameStatus.GameOver := h2
  have hacct1 : accurate (l1.foldl (cascade_step fuel row column) s1) :=
    digStep_accurate hds1 hacc1
  rcases ih _ (row + x.1) (column + x.2) hacct1 h1 h2' with hbf |
    ⟨-, cell1, hget1, hU1, hM1⟩
  · have hrest : DigStep
        (GameState.dig_innerF fuel
          (l1.foldl (cascade_step fuel row column) s1)
          (row + x.1) (column + x.2))
        (l2.foldl (cascade_step fuel row column)
          (GameState.dig_innerF fuel
            (l1.foldl (cascade_step fuel row column) s1)
            (row + x.1) (column + x.2))) :=
      foldl_rel DigStep _ digStep_refl (fun _ _ _ => digStep_trans) l2 _
        (fun t off _ => cascade_step_digStep fuel row column t off)
    show bad_flag (l2.foldl (cascade_step fuel row column)
      (cascade_step fuel row column
        (l1.foldl (cascade_step fuel row column) s1) x))
    exact digStep_bad_flag hrest hbf
  · exfalso
    obtain ⟨cell0, hget0, hk0, hstep0⟩ := digStep_get_back hds1 _ _ cell1 hget1
    have hM0 : cell0.kind = CellKind.Mine := by
      rw [← hk0]
      exact hM1
    have hnone := List.countP_eq_zero.mp hzero x hxmem
    have hnone2 : ¬ ((match s1.get_cell_state (row + x.1) (column + x.2) with
        | some cell => cell.is_mine
        | none => false) = true) := hnone
    rw [hget0] at hnone2
    exact hnone2 (is_mine_of_kind hM0)

/-- GameOver analysis for `dig_inner`: starting from an accurate state not in
GameOver, a dig that ends in GameOver either leaves a misplaced flag visible
in the result (mine detonated through a chord with a wrong flag), or the dug
cell itself was an untouched mine and the `cleared` counter is unchanged. -/
theorem dig_innerF_gameover : ∀ fuel : Nat, GameoverIH fuel := by
  intro fuel
  induction fuel with
  | zero =>
    intro s row column _ hns hgo
    rw [dig_innerF_zero] at hgo
    exact absurd hgo hns
  | succ fuel ih =>
    intro s row column hacc hns hgo
    cases hget : s.get_cell_state row column with
    | none =>
      rw [dig_innerF_none fuel hget] at hgo
      exact absurd hgo hns
    | some cell =>
      cases hi : cell.interaction with
      | Flagged =>
        rw [dig_innerF_flagged fuel hget hi] at hgo
        exact absurd hgo hns
      | Cleared =>
        cases hk : cell.kind with
        | Mine =>
          rw [dig_innerF_cleared_mine fuel hget hi hk] at hgo
          exact absurd hgo hns
        | Clear n =>
          by_cases hf : n = s.adjacent_flags row column
          case neg =>
            rw [dig_innerF_chord_ne fuel hget hi hk hf] at hgo
            exact absurd hgo hns
          case pos =>
            rw [dig_innerF_chord fuel hget hi hk hf] at hgo
            rw [dig_innerF_chord fuel hget hi hk hf]
            left
            have hmem : (row, column) ∈ all_positions s.rows s.columns :=
              get_mem_all_positions hget
            have hkat : kind_at s (row, column) = CellKind.Clear n := by
              rw [kind_at_of_get hget, hk]
            have hn_eq : n = s.adjacent_mines row column := by
              rcases hacc _ hmem with hm | hcl
              · rw [hkat] at hm
                cases hm
              · rw [hkat] at hcl
                exact CellKind.Clear.inj hcl
            exact gameover_fold_chord fuel ih s row column hacc hns
              (by rw [← hf, hn_eq]) hgo
      | Untouched =>
        cases hk : cell.kind with
        | Mine =>
          rw [dig_innerF_untouched_mine fuel hget hi hk] at hgo
          rw [dig_innerF_untouched_mine fuel hget hi hk]
          right
          exact ⟨set_cell_state_cleared s row column _, cell, rfl, hi, hk⟩
        | Clear n =>
          cases n with
          | succ m =>
            rw [dig_innerF_untouched_pos fuel hget hi hk] at hgo
            refine absurd ?_ hns
            calc s.status
                = (s.set_cell_state row column
                    { cell with interaction := CellInteraction.Cleared
                      }).status := (set_cell_state_status s row column _).symm
              _ = GameStatus.GameOver := hgo
          | zero =>
            rw [dig_innerF_untouched_zero fuel hget hi hk] at hgo
            rw [dig_innerF_untouched_zero fuel hget hi hk]
            left
            have hmem : (row, column) ∈ all_positions s.rows s.columns :=
              get_mem_all_positions hget
            have hkat : kind_at s (row, column) = CellKind.Clear 0 := by
              rw [kind_at_of_get hget, hk]
            have hzs : s.adjacent_mines row column = 0 := by
              rcases hacc _ hmem with hm | hcl
              · rw [hkat] at hm
                cases hm
              · rw [hkat] at hcl
                exact (CellKind.Clear.inj hcl).symm
            have hzs1 : (s.set_cell_state row column
                { cell with interaction := CellInteraction.Cleared
                  }).adjacent_mines row column = 0 := by
              rw [adjacent_mines_set hget _]
              exact hzs
            have hacc1 : accurate (s.set_cell_state row column
                { cell with interaction := CellInteraction.Cleared }) :=
              accurate_set_interaction hget _ hacc
            have hns1 : (s.set_cell_state row column
                { cell with interaction := CellInteraction.Cleared
                  }).status ≠ GameStatus.GameOver := by
              rw [set_cell_state_status]
              exact hns
            have hgo2 : (ADJACENTS.foldl (cascade_step fuel row column)
                (s.set_cell_state row column
                  { cell with interaction := CellInteraction.Cleared
                    })).status = GameStatus.GameOver := hgo
            have hbf := gameover_fold_cascade fuel ih _ row column hacc1 hns1
              hzs1 hgo2
            exact hbf

/-! ### Mine placement and the numbering phase of `start` -/

theorem pick_cell_spec (σ : Nat → Nat) (total : Nat) (cells : List CellState)
    (excl : List Nat) (htotal : 0 < total) :
    ∀ (fuel k i k2 : Nat),
      pick_cell σ total cells excl k fuel = some (i, k2) →
      i < total ∧ i ∉ excl ∧ (cells.getD i default).is_mine = false := by
  intro fuel
  induction fuel with
  | zero =>
    intro k i k2 h
    simp [pick_cell] at h
  | succ fuel ihf =>
    intro k i k2 h
    unfold pick_cell at h
    split at h
    · exact ihf _ _ _ h
    · split at h
      · exact ihf _ _ _ h
      · rename_i hexcl hmine
        injection h with h2
        have h3 : σ k % total = i := congrArg Prod.fst h2
        subst h3
        refine ⟨Nat.mod_lt _ htotal, hexcl, ?_⟩
        cases hm : (cells.getD (σ k % total) default).is_mine
        · rfl
        · exact absurd hm hmine

theorem place_mines_spec (σ : Nat → Nat) (total : Nat) (excl : List Nat)
    (htotal : 0 < total) :
    ∀ (remaining k fuel : Nat) (cells cells2 : List CellState),
      cells.length = total →
      place_mines σ total excl remaining k fuel cells = some cells2 →
      cells2.length = cells.length ∧
      (∀ i, i < cells.length →
        (cells2.getD i default).interaction =
          (cells.getD i default).interaction) ∧
      (∀ i ∈ excl, cells2.getD i default = cells.getD i default) ∧
      cells2.countP CellState.is_mine =
        cells.countP CellState.is_mine + remaining := by
  intro remaining
  induction remaining with
  | zero =>
    intro k fuel cells cells2 hlen h
    unfold place_mines at h
    injection h with h2
    subst h2
    exact ⟨rfl, fun _ _ => rfl, fun _ _ => rfl, rfl⟩
  | succ remaining ihr =>
    intro k fuel cells cells2 hlen h
    unfold place_mines at h
    cases hp : pick_cell σ total cells excl k fuel with
    | none => rw [hp] at h; cases h
    | some ik =>
      obtain ⟨i, k2⟩ := ik
      rw [hp] at h
      obtain ⟨hi_lt, hi_excl, hi_mine⟩ :=
        pick_cell_spec σ total cells excl htotal fuel k i k2 hp
      have hilt : i < cells.length := by rw [hlen]; exact hi_lt
      have hlen2 : (cells.set i
          { cells.getD i default with kind := CellKind.Mine }).length = total := by
        rw [List.length_set]; exact hlen
      obtain ⟨hL, hI, hE, hC⟩ := ihr k2 fuel _ cells2 hlen2 h
      rw [List.length_set] at hL
      refine ⟨hL, ?_, ?_, ?_⟩
      · intro j hj
        have hj2 : j < (cells.set i
            { cells.getD i default with kind := CellKind.Mine }).length := by
          rw [List.length_set]; exact hj
        rw [hI j hj2]
        by_cases hij : i = j
        · subst hij
          rw [getD_set_self hilt]
        · rw [getD_set_ne hij]
      · intro j hj
        rw [hE j hj, getD_set_ne (fun he => hi_excl (by rw [he]; exact hj))]
      · rw [hC, List.countP_set _ _ _ _ hilt]
        have hold : CellState.is_mine cells[i] = false := by
          rw [← getD_lt hilt]
          exact hi_mine
        have hnew : CellState.is_mine
            { cells.getD i default with kind := CellKind.Mine } = true := rfl
        rw [hold, hnew]
        simp only [Bool.false_eq_true, if_false, if_true]
        omega

/-- What the numbering phase preserves: everything except cell kinds, and
even of the kinds the mine/clear split. -/
def MStep (s t : GameState) : Prop :=
  t.rows = s.rows ∧ t.columns = s.columns ∧ t.mines = s.mines ∧
  t.cleared = s.cleared ∧ t.status = s.status ∧ t.info = s.info ∧
  t.posts = s.posts ∧ t.username = s.username ∧ t.difficulty = s.difficulty ∧
  t.size = s.size ∧ t.cell_states.length = s.cell_states.length ∧
  (∀ i, i < s.cell_states.length →
    (t.cell_states.getD i default).interaction =
      (s.cell_states.getD i default).interaction ∧
    (t.cell_states.getD i default).is_mine =
      (s.cell_states.getD i default).is_mine)

theorem mStep_refl (s : GameState) : MStep s s :=
  ⟨rfl, rfl, rfl, rfl, rfl, rfl, rfl, rfl, rfl, rfl, rfl,
    fun _ _ => ⟨rfl, rfl⟩⟩

theorem mStep_trans {s t u : GameState} (h1 : MStep s t) (h2 : MStep t u) :
    MStep s u := by
  obtain ⟨a1, b1, c1, d1, e1, f1, g1, i1, j1, k1, l1, m1⟩ := h1
  obtain ⟨a2, b2, c2, d2, e2, f2, g2, i2, j2, k2, l2, m2⟩ := h2
  refine ⟨a2.trans a1, b2.trans b1, c2.trans c1, d2.trans d1, e2.trans e1,
    f2.trans f1, g2.trans g1, i2.trans i1, j2.trans j1, k2.trans k1,
    l2.trans l1, fun i hi => ?_⟩
  obtain ⟨p1, q1⟩ := m1 i hi
  obtain ⟨p2, q2⟩ := m2 i (by omega)
  exact ⟨p2.trans p1, q2.trans q1⟩

theorem get_set_is_mine {s : GameState} {r c : Int} {cell : CellState}
    (hget : s.get_cell_state r c = some cell) {newcell : CellState}
    (hm : newcell.is_mine = cell.is_mine) (a b : Int) :
    ((s.set_cell_state r c newcell).get_cell_state a b).map CellState.is_mine =
      (s.get_cell_state a b).map CellState.is_mine := by
  by_cases hq : r = a ∧ c = b
  · obtain ⟨h1, h2⟩ := hq
    subst h1; subst h2
    rw [get_set_self hget, hget]
    show some newcell.is_mine = some cell.is_mine
    rw [hm]
  · rw [get_set_of_ne _ hq]

theorem adjacent_mines_set_is_mine {s : GameState} {r c : Int}
    {cell : CellState} (hget : s.get_cell_state r c = some cell)
    {newcell : CellState} (hm : newcell.is_mine = cell.is_mine) (a b : Int) :
    (s.set_cell_state r c newcell).adjacent_mines a b =
      s.adjacent_mines a b := by
  unfold GameState.adjacent_mines
  refine List.countP_congr fun off _ => ?_
  have hmap := get_set_is_mine hget hm (a + off.1) (b + off.2)
  cases h1 : (s.set_cell_state r c newcell).get_cell_state
      (a + off.1) (b + off.2) with
  | none =>
    cases h2 : s.get_cell_state (a + off.1) (b + off.2) with
    | none => rfl
    | some c2 => rw [h1, h2] at hmap; cases hmap
  | some c1 =>
    cases h2 : s.get_cell_state (a + off.1) (b + off.2) with
    | none => rw [h1, h2] at hmap; cases hmap
    | some c2 =>
      rw [h1, h2] at hmap
      show c1.is_mine = true ↔ c2.is_mine = true
      rw [Option.some.inj hmap]

theorem assign_step_mStep (t : GameState) (p : Int × Int) :
    MStep t (assign_step t p) := by
  unfold assign_step
  cases hget : t.get_cell_state p.1 p.2 with
  | none => exact mStep_refl t
  | some cell =>
    show MStep t (if cell.is_clear = true then _ else t)
    by_cases hcl : cell.is_clear = true
    case neg =>
      rw [if_neg hcl]
      exact mStep_refl t
    case pos =>
      rw [if_pos hcl]
      obtain ⟨i, hidx, hget?, hlt, hgetD⟩ := get_cell_state_elim hget
      have hcells : (t.set_cell_state p.1 p.2
          { cell with kind := CellKind.Clear (t.adjacent_mines p.1 p.2)
            }).cell_states =
          t.cell_states.set i
            { cell with kind := CellKind.Clear (t.adjacent_mines p.1 p.2) } := by
        unfold GameState.set_cell_state
        rw [hidx]
      refine ⟨set_cell_state_rows t p.1 p.2 _, set_cell_state_columns t p.1 p.2 _,
        set_cell_state_mines t p.1 p.2 _, set_cell_state_cleared t p.1 p.2 _,
        set_cell_state_status t p.1 p.2 _, set_cell_state_info t p.1 p.2 _,
        set_cell_state_posts t p.1 p.2 _, set_cell_state_username t p.1 p.2 _,
        set_cell_state_difficulty t p.1 p.2 _, set_cell_state_size t p.1 p.2 _,
        set_cell_state_length t p.1 p.2 _, fun j hj => ?_⟩
    
      rw [hcells]
      by_cases hij : i = j
      · subst hij
        rw [getD_set_self hlt, hgetD]
        refine ⟨rfl, ?_⟩
        show ({ cell with
          kind := CellKind.Clear (t.adjacent_mines p.1 p.2) } :
            CellState).is_mine = cell.is_mine
        rw [is_clear_eq_not_is_mine] at hcl
        have : cell.is_mine = false := by
          cases hmm : cell.is_mine
          · rfl
          · rw [hmm] at hcl; cases hcl
        rw [this]
        rfl
      · rw [getD_set_ne hij]
        exact ⟨rfl, rfl⟩

theorem mStep_get {s t : GameState} (h : MStep s t) (r c : Int) :
    (s.get_cell_state r c = none → t.get_cell_state r c = none) ∧
    (∀ cell, s.get_cell_state r c = some cell →
      ∃ cell', t.get_cell_state r c = some cell' ∧
        cell'.interaction = cell.interaction ∧
        cell'.is_mine = cell.is_mine) := by
  obtain ⟨hr, hc, -, -, -, -, -, -, -, -, hlen, hpt⟩ := h
  have hidx : t.index r c = s.index r c := index_congr hr hc r c
  unfold GameState.get_cell_state
  rw [hidx]
  cases hi : s.index r c with
  | none => exact ⟨fun _ => rfl, fun cell hcell => by simp at hcell⟩
  | some i =>
    simp only [Option.some_bind]
    constructor
    · intro hnone
      rw [List.get?_eq_getElem?, List.getElem?_eq_none_iff] at hnone ⊢
      omega
    · intro cell hcell
      have hlt : i < s.cell_states.length := by
        rw [List.get?_eq_getElem?] at hcell
        exact (List.getElem?_eq_some_iff.mp hcell).1
      have hgetD : s.cell_states.getD i default = cell := by
        rw [List.getD_eq_getElem?_getD, ← List.get?_eq_getElem?, hcell]
        rfl
      obtain ⟨hin, hmi⟩ := hpt i hlt
      refine ⟨t.cell_states.getD i default, ?_, by rw [hin, hgetD],
        by rw [hmi, hgetD]⟩
      rw [List.get?_eq_getElem?, List.getD_eq_getElem?_getD]
      have hlt2 : i < t.cell_states.length := by omega
      rw [List.getElem?_eq_getElem hlt2]
      rfl

theorem mStep_adjacent_mines {s t : GameState} (h : MStep s t) (a b : Int) :
    t.adjacent_mines a b = s.adjacent_mines a b := by
  unfold GameState.adjacent_mines
  refine List.countP_congr fun off _ => ?_
  cases hs : s.get_cell_state (a + off.1) (b + off.2) with
  | none =>
    rw [(mStep_get h _ _).1 hs]
  | some cell =>
    obtain ⟨cell', hcell', -, hmi⟩ := (mStep_get h _ _).2 cell hs
    rw [hcell']
    show cell'.is_mine = true ↔ cell.is_mine = true
    rw [hmi]

theorem mStep_count_mines {s t : GameState} (h : MStep s t) :
    count_mines t = count_mines s := by
  unfold count_mines
  refine countP_eq_of_pointwise _ t.cell_states s.cell_states
    h.2.2.2.2.2.2.2.2.2.2.1 fun i hi => ?_
  have hi2 : i < s.cell_states.length := by
    have := h.2.2.2.2.2.2.2.2.2.2.1
    omega
  exact (h.2.2.2.2.2.2.2.2.2.2.2 i hi2).2

theorem assign_fold_mStep (s : GameState) (l : List (Int × Int)) :
    MStep s (l.foldl assign_step s) :=
  foldl_rel MStep assign_step mStep_refl (fun _ _ _ => mStep_trans) l s
    (fun t p _ => assign_step_mStep t p)

theorem kind_mine_of_not_clear {cell : CellState}
    (h : cell.is_clear = false) : cell.kind = CellKind.Mine := by
  unfold CellState.is_clear at h
  cases hk : cell.kind
  · rfl
  · rw [hk] at h; cases h

theorem is_mine_false_of_clear {cell : CellState}
    (h : cell.is_clear = true) : cell.is_mine = false := by
  rw [is_clear_eq_not_is_mine] at h
  cases hm : cell.is_mine
  · rfl
  · rw [hm] at h; cases h

theorem get_cell_state_isSome {s : GameState} {r c : Int}
    (hlen : s.cell_states.length = (s.rows * s.columns).toNat)
    (hb : 0 ≤ r ∧ 0 ≤ c ∧ r < s.rows ∧ c < s.columns) :
    ∃ cell, s.get_cell_state r c = some cell := by
  have hidx : s.index r c = some (r * s.columns + c).toNat := by
    unfold GameState.index
    rw [if_pos hb]
  have hlt : (r * s.columns + c).toNat < s.cell_states.length :=
    index_lt_length hlen hidx
  refine ⟨s.cell_states[(r * s.columns + c).toNat], ?_⟩
  unfold GameState.get_cell_state
  rw [hidx]
  simp [List.get?_eq_getElem?, List.getElem?_eq_getElem hlt]

theorem assign_step_preserves_accA (p : Int × Int) (u : GameState)
    (q : Int × Int)
    (hA : kind_at u p = CellKind.Mine ∨
      kind_at u p = CellKind.Clear (u.adjacent_mines p.1 p.2)) :
    kind_at (assign_step u q) p = CellKind.Mine ∨
      kind_at (assign_step u q) p =
        CellKind.Clear ((assign_step u q).adjacent_mines p.1 p.2) := by
  unfold assign_step
  cases hget : u.get_cell_state q.1 q.2 with
  | none => exact hA
  | some cellq =>
    show kind_at (if cellq.is_clear = true then
        u.set_cell_state q.1 q.2
          { cellq with kind := CellKind.Clear (u.adjacent_mines q.1 q.2) }
      else u) p = CellKind.Mine ∨
      kind_at (if cellq.is_clear = true then
        u.set_cell_state q.1 q.2
          { cellq with kind := CellKind.Clear (u.adjacent_mines q.1 q.2) }
      else u) p = CellKind.Clear ((if cellq.is_clear = true then
        u.set_cell_state q.1 q.2
          { cellq with kind := CellKind.Clear (u.adjacent_mines q.1 q.2) }
      else u).adjacent_mines p.1 p.2)
    by_cases hcl : cellq.is_clear = true
    case neg =>
      rw [if_neg hcl]
      exact hA
    case pos =>
      rw [if_pos hcl]
      have hmeq : ({ cellq with
          kind := CellKind.Clear (u.adjacent_mines q.1 q.2) } :
            CellState).is_mine = cellq.is_mine := by
        rw [is_mine_false_of_clear hcl]
        rfl
      have hadj : ∀ a b : Int,
          (u.set_cell_state q.1 q.2
            { cellq with kind := CellKind.Clear (u.adjacent_mines q.1 q.2)
              }).adjacent_mines a b = u.adjacent_mines a b :=
        adjacent_mines_set_is_mine hget hmeq
      by_cases hpq : q.1 = p.1 ∧ q.2 = p.2
      · obtain ⟨h1, h2⟩ := hpq
        right
        unfold kind_at
        rw [← h1, ← h2, get_set_self hget, hadj]
        rfl
      · have hkat : kind_at (u.set_cell_state q.1 q.2
            { cellq with kind := CellKind.Clear (u.adjacent_mines q.1 q.2) }) p =
            kind_at u p := by
          unfold kind_at
          rw [get_set_of_ne _ hpq]
        rw [hkat, hadj]
        exact hA

theorem assign_step_establishes (t1 : GameState) (p : Int × Int)
    (hsome : ∃ cell, t1.get_cell_state p.1 p.2 = some cell) :
    kind_at (assign_step t1 p) p = CellKind.Mine ∨
      kind_at (assign_step t1 p) p =
        CellKind.Clear ((assign_step t1 p).adjacent_mines p.1 p.2) := by
  obtain ⟨cell, hget⟩ := hsome
  unfold assign_step
  rw [hget]
  show kind_at (if cell.is_clear = true then
      t1.set_cell_state p.1 p.2
        { cell with kind := CellKind.Clear (t1.adjacent_mines p.1 p.2) }
    else t1) p = CellKind.Mine ∨
    kind_at (if cell.is_clear = true then
      t1.set_cell_state p.1 p.2
        { cell with kind := CellKind.Clear (t1.adjacent_mines p.1 p.2) }
    else t1) p = CellKind.Clear ((if cell.is_clear = true then
      t1.set_cell_state p.1 p.2
        { cell with kind := CellKind.Clear (t1.adjacent_mines p.1 p.2) }
    else t1).adjacent_mines p.1 p.2)
  by_cases hcl : cell.is_clear = true
  case pos =>
    rw [if_pos hcl]
    right
    have hmeq : ({ cell with
        kind := CellKind.Clear (t1.adjacent_mines p.1 p.2) } :
          CellState).is_mine = cell.is_mine := by
      rw [is_mine_false_of_clear hcl]
      rfl
    unfold kind_at
    rw [get_set_self hget, adjacent_mines_set_is_mine hget hmeq]
    rfl
  case neg =>
    rw [if_neg hcl]
    left
    unfold kind_at
    rw [hget]
    show cell.kind = CellKind.Mine
    have hc : cell.is_clear = false := by
      cases hc2 : cell.is_clear
      · rfl
      · exact absurd hc2 hcl
    exact kind_mine_of_not_clear hc

theorem assign_fold_accurate (s : GameState)
    (hlen : s.cell_states.length = (s.rows * s.columns).toNat) :
    accurate ((all_positions s.rows s.columns).foldl assign_step s) := by
  intro p hp
  have hMall := assign_fold_mStep s (all_positions s.rows s.columns)
  have hpos_eq : all_positions
      ((all_positions s.rows s.columns).foldl assign_step s).rows
      ((all_positions s.rows s.columns).foldl assign_step s).columns =
      all_positions s.rows s.columns := by
    rw [hMall.1, hMall.2.1]
  rw [hpos_eq] at hp
  obtain ⟨l1, l2, hsplit⟩ := List.append_of_mem hp
  rw [hsplit, List.foldl_append, List.foldl_cons]
  have hM1 : MStep s (l1.foldl assign_step s) := assign_fold_mStep s l1
  have hb := mem_all_positions.mp hp
  have hsome : ∃ cell, (l1.foldl assign_step s).get_cell_state p.1 p.2 =
      some cell := by
    refine get_cell_state_isSome ?_ ?_
    · rw [hM1.2.2.2.2.2.2.2.2.2.2.1, hlen, hM1.1, hM1.2.1]
    · rw [hM1.1, hM1.2.1]
      exact ⟨hb.1, hb.2.2.1, hb.2.1, hb.2.2.2⟩
  have hA2 := assign_step_establishes (l1.foldl assign_step s) p hsome
  exact foldl_preserve assign_step
    (fun u => kind_at u p = CellKind.Mine ∨
      kind_at u p = CellKind.Clear (u.adjacent_mines p.1 p.2)) l2
    (assign_step (l1.foldl assign_step s) p)
    (fun u q _ hA => assign_step_preserves_accA p u q hA) hA2

/-- Everything `GameState::start` guarantees: status becomes `Started`, all
non-cell fields and all interactions are untouched, the stored numbers are
accurate, and — when the board held no mines yet — exactly `mines` mines were
placed, none of them inside the safe zone around the clicked cell. -/
theorem start_spec {σ : Nat → Nat} {fuel : Nat} {s : GameState}
    {row column : Int} {s1 : GameState}
    (hlen : s.cell_states.length = (s.rows * s.columns).toNat)
    (hrows : 0 < s.rows) (hcols : 0 < s.columns)
    (hstart : GameState.start σ fuel s row column = some s1) :
    s1.status = GameStatus.Started ∧
    s1.rows = s.rows ∧ s1.columns = s.columns ∧ s1.mines = s.mines ∧
    s1.cleared = s.cleared ∧ s1.info = s.info ∧ s1.posts = s.posts ∧
    s1.username = s.username ∧ s1.difficulty = s.difficulty ∧
    s1.size = s.size ∧
    s1.cell_states.length = s.cell_states.length ∧
    (∀ i, i < s.cell_states.length →
      (s1.cell_states.getD i default).interaction =
        (s.cell_states.getD i default).interaction) ∧
    accurate s1 ∧
    ((∀ cell ∈ s.cell_states, cell.is_mine = false) →
      count_mines s1 = s.mines.toNat ∧
      ∀ off ∈ (((0, 0) : Int × Int) :: ADJACENTS), ∀ cell2,
        s1.get_cell_state (row + off.1) (column + off.2) = some cell2 →
        cell2.is_clear = true) := by
  unfold GameState.start at hstart
  cases hplace : place_mines σ (s.rows * s.columns).toNat
      (s.exclude_zone row column) s.mines.toNat 0 fuel s.cell_states with
  | none => rw [hplace] at hstart; cases hstart
  | some cells =>
    rw [hplace] at hstart
    injection hstart with hs1
    subst hs1
    have htotal : 0 < (s.rows * s.columns).toNat := by
      have : 0 < s.rows * s.columns := mul_pos hrows hcols
      omega
    obtain ⟨hL, hI, hE, hC⟩ := place_mines_spec σ _ _ htotal
      s.mines.toNat 0 fuel s.cell_states cells hlen hplace
    have hlenM : ({ s with cell_states := cells } :
        GameState).cell_states.length =
        (({ s with cell_states := cells } : GameState).rows *
          ({ s with cell_states := cells } : GameState).columns).toNat := by
      show cells.length = (s.rows * s.columns).toNat
      rw [hL, hlen]
    have hMfold := assign_fold_mStep ({ s with cell_states := cells })
      (all_positions s.rows s.columns)
    have hacc := assign_fold_accurate ({ s with cell_states := cells }) hlenM
    refine ⟨rfl, hMfold.1, hMfold.2.1, hMfold.2.2.1, hMfold.2.2.2.1, ?_, ?_,
      ?_, ?_, ?_, ?_, ?_, ?_, ?_⟩
    · exact hMfold.2.2.2.2.2.1
    · exact hMfold.2.2.2.2.2.2.1
    · exact hMfold.2.2.2.2.2.2.2.1
    · exact hMfold.2.2.2.2.2.2.2.2.1
    · exact hMfold.2.2.2.2.2.2.2.2.2.1
    · show ((all_positions s.rows s.columns).foldl assign_step
        { s with cell_states := cells }).cell_states.length =
        s.cell_states.length
      rw [hMfold.2.2.2.2.2.2.2.2.2.2.1]
      show cells.length = s.cell_states.length
      exact hL
    · intro i hi
      have hi2 : i < cells.length := by rw [hL]; exact hi
      have := (hMfold.2.2.2.2.2.2.2.2.2.2.2 i hi2).1
      rw [this]
      exact hI i hi
    · show accurate ({ (all_positions s.rows s.columns).foldl assign_step
        { s with cell_states := cells } with status := GameStatus.Started })
      intro p hp
      have hcongr : ∀ q : Int × Int, ∀ t : GameState,
          kind_at ({ t with status := GameStatus.Started }) q = kind_at t q :=
        fun q t => rfl
      have hadjc : ∀ a b : Int, ∀ t : GameState,
          ({ t with status := GameStatus.Started } :
            GameState).adjacent_mines a b = t.adjacent_mines a b :=
        fun a b t => rfl
      exact hacc p hp
    · intro hnomine
      constructor
      · have hC0 : s.cell_states.countP CellState.is_mine = 0 :=
          List.countP_eq_zero.mpr fun cell hc => by
            rw [hnomine cell hc]
            exact Bool.false_ne_true
        have hCM : count_mines ({ s with cell_states := cells } :
            GameState) = s.mines.toNat := by
          unfold count_mines
          show cells.countP CellState.is_mine = s.mines.toNat
          rw [hC, hC0]
          omega
        have := mStep_count_mines hMfold
        show count_mines ({ (all_positions s.rows s.columns).foldl assign_step
          { s with cell_states := cells } with status := GameStatus.Started
            }) = s.mines.toNat
        have hsame : count_mines ({ (all_positions s.rows s.columns).foldl
            assign_step { s with cell_states := cells } with
              status := GameStatus.Started }) =
            count_mines ((all_positions s.rows s.columns).foldl
              assign_step { s with cell_states := cells }) := rfl
        rw [hsame, this, hCM]
      · intro off hoff cell2 hget2
        -- the neighbour index is in the exclusion zone, so its cell is the
        -- original (clear) cell, possibly renumbered by the assign phase
        have hget2' : ((all_positions s.rows s.columns).foldl assign_step
            { s with cell_states := cells }).get_cell_state
              (row + off.1) (column + off.2) = some cell2 := hget2
        obtain ⟨i, hidx, hget?, hlt, hgetD⟩ := get_cell_state_elim hget2'
        have hidx_s : s.index (row + off.1) (column + off.2) = some i := by
          rw [← hidx]
          exact (index_congr hMfold.1 hMfold.2.1 _ _).symm
        have hmem_excl : i ∈ s.exclude_zone row column := by
          unfold GameState.exclude_zone
          exact List.mem_filterMap.mpr ⟨off, hoff, hidx_s⟩
        have hunchanged := hE i hmem_excl
        have hilt : i < cells.length := by
          have h2 := hlt
          rw [hMfold.2.2.2.2.2.2.2.2.2.2.1] at h2
          exact h2
        have hmine_pt := (hMfold.2.2.2.2.2.2.2.2.2.2.2 i hilt).2
        have hcell2 : ((all_positions s.rows s.columns).foldl assign_step
            { s with cell_states := cells }).cell_states.getD i default =
            cell2 := hgetD
        have horig_mem : s.cell_states.getD i default ∈ s.cell_states := by
          have hilt0 : i < s.cell_states.length := by rw [hlen]; omega
          rw [getD_lt hilt0]
          exact List.getElem_mem hilt0
        have horig := hnomine _ horig_mem
        rw [hcell2] at hmine_pt
        rw [is_clear_eq_not_is_mine, hmine_pt, hunchanged, horig]
        rfl

/-! ### `update_score`, `flag`, `reset`, `new` -/

theorem update_score_of_victory_transition {s : GameState}
    (h1 : s.status = GameStatus.Started)
    (h2 : s.cleared = s.rows * s.columns - s.mines) :
    s.update_score = { s with
      status := GameStatus.Victory
      posts := s.posts ++
        [{ username := s.username
           time_in_seconds := s.info.elapsed_seconds
           difficulty := s.difficulty
           size := s.size }]
      info := { s.info with
                cleared := s.cleared
                status := GameStatus.Victory } } := by
  unfold GameState.update_score
  rw [h1, if_pos h2]

theorem update_score_of_started_ne {s : GameState}
    (h1 : s.status = GameStatus.Started)
    (h2 : ¬ s.cleared = s.rows * s.columns - s.mines) :
    s.update_score = { s with
      info := { s.info with
                cleared := s.cleared
                status := s.status } } := by
  unfold GameState.update_score
  rw [h1, if_neg h2]

theorem update_score_of_not_started {s : GameState}
    (h1 : s.status ≠ GameStatus.Started) :
    s.update_score = { s with
      info := { s.info with
                cleared := s.cleared
                status := s.status } } := by
  unfold GameState.update_score
  cases hs : s.status
  · rfl
  · exact absurd hs h1
  · rfl
  · rfl

/-- `update_score` only changes `status`, `posts` and `info`. -/
theorem update_score_frame (s : GameState) :
    (s.update_score).rows = s.rows ∧ (s.update_score).columns = s.columns ∧
    (s.update_score).mines = s.mines ∧ (s.update_score).cleared = s.cleared ∧
    (s.update_score).cell_states = s.cell_states ∧
    (s.update_score).username = s.username ∧
    (s.update_score).difficulty = s.difficulty ∧
    (s.update_score).size = s.size := by
  unfold GameState.update_score
  cases s.status
  · exact ⟨rfl, rfl, rfl, rfl, rfl, rfl, rfl, rfl⟩
  · by_cases h2 : s.cleared = s.rows * s.columns - s.mines
    · rw [if_pos h2]
      exact ⟨rfl, rfl, rfl, rfl, rfl, rfl, rfl, rfl⟩
    · rw [if_neg h2]
      exact ⟨rfl, rfl, rfl, rfl, rfl, rfl, rfl, rfl⟩
  · exact ⟨rfl, rfl, rfl, rfl, rfl, rfl, rfl, rfl⟩
  · exact ⟨rfl, rfl, rfl, rfl, rfl, rfl, rfl, rfl⟩

/-- `update_score` publishes the current `cleared` and `status` to `info`. -/
theorem update_score_info_sync (s : GameState) :
    (s.update_score).info.cleared = (s.update_score).cleared ∧
    (s.update_score).info.status = (s.update_score).status := by
  unfold GameState.update_score
  cases s.status
  · exact ⟨rfl, rfl⟩
  · by_cases h2 : s.cleared = s.rows * s.columns - s.mines
    · rw [if_pos h2]
      exact ⟨rfl, rfl⟩
    · rw [if_neg h2]
      exact ⟨rfl, rfl⟩
  · exact ⟨rfl, rfl⟩
  · exact ⟨rfl, rfl⟩

/-- The status after `update_score`: a Victory transition happens exactly on
`Started` with a full counter; otherwise the status is unchanged. -/
theorem update_score_status (s : GameState) :
    (s.status = GameStatus.Started ∧
        s.cleared = s.rows * s.columns - s.mines ∧
        (s.update_score).status = GameStatus.Victory ∧
        (s.update_score).posts = s.posts ++
          [{ username := s.username
             time_in_seconds := s.info.elapsed_seconds
             difficulty := s.difficulty
             size := s.size }]) ∨
      ((s.update_score).status = s.status ∧ (s.update_score).posts = s.posts ∧
        ¬ (s.status = GameStatus.Started ∧
          s.cleared = s.rows * s.columns - s.mines)) := by
  by_cases h1 : s.status = GameStatus.Started
  · by_cases h2 : s.cleared = s.rows * s.columns - s.mines
    · left
      rw [update_score_of_victory_transition h1 h2]
      exact ⟨h1, h2, rfl, rfl⟩
    · right
      rw [update_score_of_started_ne h1 h2]
      exact ⟨rfl, rfl, fun h => h2 h.2⟩
  · right
    rw [update_score_of_not_started h1]
    exact ⟨rfl, rfl, fun h => h1 h.1⟩


theorem flag_terminal {s : GameState} (row column : Int)
    (h : s.status = GameStatus.GameOver ∨ s.status = GameStatus.Victory) :
    s.flag row column = s := by
  unfold GameState.flag
  rcases h with h | h <;> rw [h]

theorem flag_eq_of_not_terminal {s : GameState} (row column : Int)
    (h1 : s.status ≠ GameStatus.GameOver)
    (h2 : s.status ≠ GameStatus.Victory) :
    s.flag row column =
      match s.get_cell_state row column with
      | none => s
      | some cell =>
        match cell.interaction with
        | CellInteraction.Untouched =>
          s.set_cell_state row column
            { cell with interaction := CellInteraction.Flagged }
        | CellInteraction.Cleared => s
        | CellInteraction.Flagged =>
          s.set_cell_state row column
            { cell with interaction := CellInteraction.Untouched } := by
  unfold GameState.flag
  cases hs : s.status
  · rfl
  · rfl
  · exact absurd hs h1
  · exact absurd hs h2

/-- `flag` leaves every field but `cell_states` unchanged, keeps kinds, and
never touches a `Cleared` interaction. -/
theorem flag_spec (s : GameState) (row column : Int) :
    (s.flag row column).rows = s.rows ∧
    (s.flag row column).columns = s.columns ∧
    (s.flag row column).mines = s.mines ∧
    (s.flag row column).cleared = s.cleared ∧
    (s.flag row column).status = s.status ∧
    (s.flag row column).info = s.info ∧
    (s.flag row column).posts = s.posts ∧
    (s.flag row column).username = s.username ∧
    (s.flag row column).difficulty = s.difficulty ∧
    (s.flag row column).size = s.size ∧
    (s.flag row column).cell_states.length = s.cell_states.length ∧
    (∀ i, i < s.cell_states.length →
      ((s.flag row column).cell_states.getD i default).kind =
        (s.cell_states.getD i default).kind ∧
      (((s.flag row column).cell_states.getD i default).interaction =
          CellInteraction.Cleared ↔
        (s.cell_states.getD i default).interaction =
          CellInteraction.Cleared)) := by
  by_cases hterm : s.status = GameStatus.GameOver ∨
    s.status = GameStatus.Victory
  · rw [flag_terminal row column hterm]
    exact ⟨rfl, rfl, rfl, rfl, rfl, rfl, rfl, rfl, rfl, rfl, rfl,
      fun _ _ => ⟨rfl, Iff.rfl⟩⟩
  · push_neg at hterm
    rw [flag_eq_of_not_terminal row column hterm.1 hterm.2]
    cases hget : s.get_cell_state row column with
    | none =>
      exact ⟨rfl, rfl, rfl, rfl, rfl, rfl, rfl, rfl, rfl, rfl, rfl,
        fun _ _ => ⟨rfl, Iff.rfl⟩⟩
    | some cell =>
      obtain ⟨inter, kind⟩ := cell
      cases inter with
      | Cleared =>
        exact ⟨rfl, rfl, rfl, rfl, rfl, rfl, rfl, rfl, rfl, rfl, rfl,
          fun _ _ => ⟨rfl, Iff.rfl⟩⟩
      | Untouched =>
        obtain ⟨i, hidx, hget?, hlt, hgetD⟩ := get_cell_state_elim hget
        have hcells : (s.set_cell_state row column
            ⟨CellInteraction.Flagged, kind⟩).cell_states =
            s.cell_states.set i ⟨CellInteraction.Flagged, kind⟩ := by
          unfold GameState.set_cell_state
          rw [hidx]
        refine ⟨set_cell_state_rows s row column _,
          set_cell_state_columns s row column _,
          set_cell_state_mines s row column _,
          set_cell_state_cleared s row column _,
          set_cell_state_status s row column _,
          set_cell_state_info s row column _,
          set_cell_state_posts s row column _,
          set_cell_state_username s row column _,
          set_cell_state_difficulty s row column _,
          set_cell_state_size s row column _,
          set_cell_state_length s row column _,
          fun j hj => ?_⟩
        rw [hcells]
        by_cases hij : i = j
        · subst hij
          rw [getD_set_self hlt, hgetD]
          refine ⟨rfl, ?_⟩
          constructor
          · intro h; cases h
          · intro h; cases h
        · rw [getD_set_ne hij]
          exact ⟨rfl, Iff.rfl⟩
      | Flagged =>
        obtain ⟨i, hidx, hget?, hlt, hgetD⟩ := get_cell_state_elim hget
        have hcells : (s.set_cell_state row column
            ⟨CellInteraction.Untouched, kind⟩).cell_states =
            s.cell_states.set i ⟨CellInteraction.Untouched, kind⟩ := by
          unfold GameState.set_cell_state
          rw [hidx]
        refine ⟨set_cell_state_rows s row column _,
          set_cell_state_columns s row column _,
          set_cell_state_mines s row column _,
          set_cell_state_cleared s row column _,
          set_cell_state_status s row column _,
          set_cell_state_info s row column _,
          set_cell_state_posts s row column _,
          set_cell_state_username s row column _,
          set_cell_state_difficulty s row column _,
          set_cell_state_size s row column _,
          set_cell_state_length s row column _,
          fun j hj => ?_⟩
        rw [hcells]
        by_cases hij : i = j
        · subst hij
          rw [getD_set_self hlt, hgetD]
          refine ⟨rfl, ?_⟩
          constructor
          · intro h; cases h
          · intro h; cases h
        · rw [getD_set_ne hij]
          exact ⟨rfl, Iff.rfl⟩

theorem reset_spec (s : GameState) :
    (s.reset).status = GameStatus.Idle ∧ (s.reset).cleared = 0 ∧
    (s.reset).rows = s.rows ∧ (s.reset).columns = s.columns ∧
    (s.reset).mines = s.mines ∧ (s.reset).posts = s.posts ∧
    (s.reset).username = s.username ∧ (s.reset).difficulty = s.difficulty ∧
    (s.reset).size = s.size ∧
    (s.reset).cell_states.length = s.cell_states.length ∧
    (∀ cell ∈ (s.reset).cell_states, cell = default) ∧
    (s.reset).info = { elapsed_seconds := 0
                       cleared := 0
                       clear_total := s.rows * s.columns - s.mines
                       status := GameStatus.Idle } := by
  refine ⟨rfl, rfl, rfl, rfl, rfl, rfl, rfl, rfl, rfl, ?_, ?_, rfl⟩
  · show (s.cell_states.map fun _ => default).length = s.cell_states.length
    rw [List.length_map]
  · intro cell hcell
    obtain ⟨a, _, heq⟩ := List.mem_map.mp hcell
    exact heq.symm

theorem reset_counts (s : GameState) :
    count_cleared_clear s.reset = 0 ∧ count_mines s.reset = 0 := by
  unfold count_cleared_clear count_mines GameState.reset
  constructor
  · show ((s.cell_states.map fun _ => default).countP _) = 0
    rw [List.countP_map]
    exact List.countP_eq_zero.mpr fun a _ h => nomatch h
  · show ((s.cell_states.map fun _ => default).countP _) = 0
    rw [List.countP_map]
    exact List.countP_eq_zero.mpr fun a _ h => nomatch h

theorem countP_disjoint_le {α : Type _} (p q : α → Bool) :
    ∀ l : List α, (∀ x ∈ l, ¬(p x = true ∧ q x = true)) →
      l.countP p + l.countP q ≤ l.length
  | [], _ => Nat.le_refl 0
  | x :: l, h => by
    have hrec := countP_disjoint_le p q l
      (fun y hy => h y (List.mem_cons_of_mem _ hy))
    have hx := h x (List.mem_cons_self _ _)
    simp only [List.countP_cons, List.length_cons]
    cases hp : p x <;> cases hq : q x <;> simp_all <;> omega

/-- The cleared-and-clear count never exceeds the number of non-mine cells. -/
theorem countCC_le (s : GameState) :
    count_cleared_clear s + count_mines s ≤ s.cell_states.length := by
  unfold count_cleared_clear count_mines
  refine countP_disjoint_le _ _ s.cell_states fun cell _ h => ?_
  obtain ⟨h1, h2⟩ := h
  rw [Bool.and_eq_true, decide_eq_true_iff] at h1
  rw [is_clear_eq_not_is_mine, h2] at h1
  cases h1.2

/-- With a misplaced flag present, some clear cell is not cleared, so the
count stays strictly below the number of non-mine cells. -/
theorem countCC_lt_of_bad_flag {s : GameState} (hb : bad_flag s) :
    count_cleared_clear s + count_mines s + 1 ≤ s.cell_states.length := by
  obtain ⟨fcell, hmem, hfl, hcl⟩ := hb
  unfold count_cleared_clear count_mines
  have hsum := countP_and_split
    (fun cell : CellState => !cell.is_mine) (fun cell : CellState =>
      decide (cell.interaction = CellInteraction.Cleared)) s.cell_states
  have hlen := List.length_eq_countP_add_countP
    (fun cell : CellState => !cell.is_mine) (l := s.cell_states)
  have hflpos : 0 < s.cell_states.countP
      (fun cell => !cell.is_mine &&
        !(decide (cell.interaction = CellInteraction.Cleared))) := by
    rw [List.countP_pos_iff]
    refine ⟨fcell, hmem, ?_⟩
    rw [is_clear_eq_not_is_mine] at hcl
    rw [hcl]
    have : fcell.interaction = CellInteraction.Flagged := by
      unfold CellState.is_flagged at hfl
      cases hin : fcell.interaction <;> rw [hin] at hfl <;> simp_all
    rw [this]
    rfl
  have hCCeq : s.cell_states.countP (fun cell =>
      decide (cell.interaction = CellInteraction.Cleared) && cell.is_clear) =
      s.cell_states.countP (fun cell =>
        !cell.is_mine && decide (cell.interaction = CellInteraction.Cleared)) := by
    refine List.countP_congr fun cell _ => ?_
    rw [is_clear_eq_not_is_mine]
    cases cell.is_mine <;> cases hd : decide
      (cell.interaction = CellInteraction.Cleared) <;> simp
  have hnm : s.cell_states.countP (fun cell : CellState => !cell.is_mine) +
      s.cell_states.countP CellState.is_mine = s.cell_states.length := by
    have := List.length_eq_countP_add_countP
      (CellState.is_mine) (l := s.cell_states)
    rw [this]
    have hcongr : s.cell_states.countP
        (fun cell : CellState => !cell.is_mine) =
        s.cell_states.countP (fun a => ¬CellState.is_mine a = true) := by
      refine List.countP_congr fun cell _ => ?_
      cases cell.is_mine <;> simp
    rw [hcongr]
    omega
  rw [hCCeq]
  omega

theorem accurate_congr {s t : GameState} (hr : s.rows = t.rows)
    (hc : s.columns = t.columns) (hcs : s.cell_states = t.cell_states)
    (ha : accurate s) : accurate t := by
  intro p hp
  rw [← hr, ← hc] at hp
  have hk : kind_at t p = kind_at s p := by
    unfold kind_at
    rw [(get_cell_state_congr hr hc hcs p.1 p.2).symm]
  have hadj : t.adjacent_mines p.1 p.2 = s.adjacent_mines p.1 p.2 := by
    unfold GameState.adjacent_mines
    refine List.countP_congr fun off _ => ?_
    rw [(get_cell_state_congr hr hc hcs (p.1 + off.1) (p.2 + off.2)).symm]
  rcases ha p hp with h | h
  · left
    rw [hk, h]
  · right
    rw [hk, h, hadj]

theorem dig_cases {σ : Nat → Nat} {fuel : Nat} {s : GameState}
    {row column : Int} {s2 : GameState}
    (h : GameState.dig σ fuel s row column = some s2) :
    ((s.status = GameStatus.GameOver ∨ s.status = GameStatus.Victory) ∧
      s2 = s) ∨
    (s.status = GameStatus.Started ∧
      s2 = (s.dig_inner row column).update_score) ∨
    (s.status = GameStatus.Idle ∧ ∃ s1,
      GameState.start σ fuel s row column = some s1 ∧
      s2 = (s1.dig_inner row column).update_score) := by
  unfold GameState.dig at h
  cases hs : s.status
  case GameOver =>
    rw [hs] at h
    have h2 : some s = some s2 := h
    exact Or.inl ⟨Or.inl rfl, (Option.some.inj h2).symm⟩
  case Victory =>
    rw [hs] at h
    have h2 : some s = some s2 := h
    exact Or.inl ⟨Or.inr rfl, (Option.some.inj h2).symm⟩
  case Started =>
    rw [hs] at h
    have h2 : some ((s.dig_inner row column).update_score) = some s2 := h
    exact Or.inr (Or.inl ⟨rfl, (Option.some.inj h2).symm⟩)
  case Idle =>
    rw [hs] at h
    have h2 : (match GameState.start σ fuel s row column with
      | none => none
      | some s1 => some ((s1.dig_inner row column).update_score)) =
        some s2 := h
    cases hstart : GameState.start σ fuel s row column with
    | none =>
      rw [hstart] at h2
      cases h2
    | some s1 =>
      rw [hstart] at h2
      exact Or.inr (Or.inr ⟨rfl, s1, rfl, (Option.some.inj h2).symm⟩)

/-- Digging then recomputing the score preserves the game invariant, for a
started state. -/
theorem dig_started_inv {s1 : GameState} (row column : Int)
    (hlen : s1.cell_states.length = (s1.rows * s1.columns).toNat)
    (hr : 0 < s1.rows) (hc : 0 < s1.columns) (hm : 0 < s1.mines)
    (hmlt : s1.mines < s1.rows * s1.columns)
    (hcounter : s1.cleared = (count_cleared_clear s1 : Int))
    (hmines : count_mines s1 = s1.mines.toNat)
    (hacc : accurate s1) (hst : s1.status = GameStatus.Started) :
    GameInv ((s1.dig_inner row column).update_score) := by
  have hds := dig_inner_digStep s1 row column
  obtain ⟨hFr, hFc, hFm, hFcl, hFcs, hFu, hFd, hFz⟩ :=
    update_score_frame (s1.dig_inner row column)
  have hcc_eq : count_cleared_clear ((s1.dig_inner row column).update_score) =
      count_cleared_clear (s1.dig_inner row column) := by
    unfold count_cleared_clear
    rw [hFcs]
  have hcm_eq : count_mines ((s1.dig_inner row column).update_score) =
      count_mines (s1.dig_inner row column) := by
    unfold count_mines
    rw [hFcs]
  have hcounter3 : (s1.dig_inner row column).cleared =
      (count_cleared_clear (s1.dig_inner row column) : Int) := by
    have hdelta := hds.2.2.2.2.2.2.2.2.2.2.2
    omega
  have hcm3 : count_mines (s1.dig_inner row column) = s1.mines.toNat := by
    rw [digStep_count_mines hds]
    exact hmines
  have hacc3 : accurate (s1.dig_inner row column) := digStep_accurate hds hacc
  have hlen3 : (s1.dig_inner row column).cell_states.length =
      s1.cell_states.length := hds.2.2.2.2.2.2.2.2.1
  have hstatus3 := hds.2.2.2.2.2.2.2.2.2.2.1
  refine ⟨?_, ?_, ?_, ?_, ?_, ?_, ?_, ?_, ?_, ?_, ?_⟩
  · rw [hFcs |> congrArg List.length, hlen3, hlen,
      (update_score_frame (s1.dig_inner row column)).1, hds.1,
      (update_score_frame (s1.dig_inner row column)).2.1, hds.2.1]
  · rw [hFr, hds.1]; exact hr
  · rw [hFc, hds.2.1]; exact hc
  · rw [hFm, hds.2.2.1]; exact hm
  · rw [hFm, hFr, hFc, hds.1, hds.2.1, hds.2.2.1]; exact hmlt
  · rw [hFcl, hcc_eq]
    exact hcounter3
  · intro hIdle
    exfalso
    rcases update_score_status (s1.dig_inner row column) with
      ⟨-, -, hvic, -⟩ | ⟨hsame, -, -⟩
    · rw [hIdle] at hvic
      cases hvic
    · rw [hIdle] at hsame
      rcases hstatus3 with h3 | h3
      · rw [hst] at h3
        rw [h3] at hsame
        cases hsame
      · rw [h3] at hsame
        cases hsame
  · intro _
    constructor
    · rw [hcm_eq, hcm3, hFm, hds.2.2.1]
    · refine accurate_congr ?_ ?_ ?_ hacc3
      · exact hFr.symm
      · exact hFc.symm
      · exact hFcs.symm
  · intro hStarted
    rcases update_score_status (s1.dig_inner row column) with
      ⟨-, -, hvic, -⟩ | ⟨hsame, -, hnot⟩
    · rw [hStarted] at hvic
      cases hvic
    · have hst3 : (s1.dig_inner row column).status = GameStatus.Started := by
        rw [← hsame, hStarted]
      have hne : ¬ (s1.dig_inner row column).cleared =
          (s1.dig_inner row column).rows *
            (s1.dig_inner row column).columns -
            (s1.dig_inner row column).mines :=
        fun hx => hnot ⟨hst3, hx⟩
      have hbound := countCC_le (s1.dig_inner row column)
      rw [hcm3, hlen3, hlen] at hbound
      rw [hFcl, hFr, hFc, hFm, hds.1, hds.2.1, hds.2.2.1]
      rw [hds.1, hds.2.1, hds.2.2.1] at hne
      have h0 : (0 : Int) < s1.rows * s1.columns := lt_trans hm hmlt
      omega
  · exact (update_score_info_sync (s1.dig_inner row column)).1
  · exact (update_score_info_sync (s1.dig_inner row column)).2

/-- `dig` preserves the game invariant. -/
theorem dig_inv {σ : Nat → Nat} {fuel : Nat} {s : GameState}
    {row column : Int} {s2 : GameState} (hinv : GameInv s)
    (h : GameState.dig σ fuel s row column = some s2) : GameInv s2 := by
  obtain ⟨hlen, hr, hc, hm, hmlt, hcounter, hidle, hplaced, hstlt, hsync1,
    hsync2⟩ := hinv
  rcases dig_cases h with ⟨hterm, rfl⟩ | ⟨hst, rfl⟩ | ⟨hst, s1, hstart, rfl⟩
  · exact ⟨hlen, hr, hc, hm, hmlt, hcounter, hidle, hplaced, hstlt, hsync1,
      hsync2⟩
  · have hnidle : s.status ≠ GameStatus.Idle := by
      rw [hst]
      intro hcon
      cases hcon
    exact dig_started_inv row column hlen hr hc hm hmlt hcounter
      (hplaced hnidle).1 (hplaced hnidle).2 hst
  · obtain ⟨hS, hMr, hMc, hMm, hMcl, hMinfo, hMposts, hMu, hMd, hMz, hMlen,
      hMint, hMacc, hMcond⟩ := start_spec hlen hr hc hstart
    obtain ⟨hid_cl, hid_cells⟩ := hidle hst
    have hnomine : ∀ cell ∈ s.cell_states, cell.is_mine = false := by
      intro cell hcell
      have hk := (hid_cells cell hcell).1
      unfold CellState.is_mine
      rw [hk]
    obtain ⟨hcm, -⟩ := hMcond hnomine
    have hnoCC : count_cleared_clear s1 = 0 := by
      unfold count_cleared_clear
      refine List.countP_eq_zero.mpr fun cell hcell => ?_
      obtain ⟨i, hlt, hEq⟩ := List.mem_iff_getElem.mp hcell
      have hlt0 : i < s.cell_states.length := by
        rw [← hMlen]
        exact hlt
      have hint := hMint i hlt0
      have hcellD : s1.cell_states.getD i default = cell := by
        rw [getD_lt hlt, hEq]
      have hmem0 : s.cell_states.getD i default ∈ s.cell_states := by
        rw [getD_lt hlt0]
        exact List.getElem_mem hlt0
      have hne := (hid_cells _ hmem0).2
      rw [hcellD] at hint
      intro hcon
      rw [Bool.and_eq_true, decide_eq_true_iff] at hcon
      exact hne (hint ▸ hcon.1)
  
    have hcounter1 : s1.cleared = (count_cleared_clear s1 : Int) := by
      rw [hMcl, hid_cl, hnoCC]
      rfl
    refine dig_started_inv row column ?_ ?_ ?_ ?_ ?_ hcounter1 ?_ hMacc hS
    · rw [hMlen, hMr, hMc]
      exact hlen
    · rw [hMr]
      exact hr
    · rw [hMc]
      exact hc
    · rw [hMm]
      exact hm
    · rw [hMm, hMr, hMc]
      exact hmlt
    · rw [hcm, hMm]

theorem accurate_of_pointwise_kinds {s t : GameState} (hr : t.rows = s.rows)
    (hc : t.columns = s.columns)
    (hlen : t.cell_states.length = s.cell_states.length)
    (hpt : ∀ i, i < s.cell_states.length →
      (t.cell_states.getD i default).kind =
        (s.cell_states.getD i default).kind)
    (ha : accurate s) : accurate t := by
  have hmap : ∀ r c : Int, (t.get_cell_state r c).map CellState.kind =
      (s.get_cell_state r c).map CellState.kind := by
    intro r c
    unfold GameState.get_cell_state
    rw [index_congr hr hc r c]
    cases hi : s.index r c with
    | none => rfl
    | some i =>
      simp only [Option.some_bind]
      cases hget : s.cell_states.get? i with
      | none =>
        rw [List.get?_eq_getElem?, List.getElem?_eq_none_iff] at hget
        have : t.cell_states.get? i = none := by
          rw [List.get?_eq_getElem?, List.getElem?_eq_none_iff]
          omega
        rw [this]
      | some cell =>
        have hlt : i < s.cell_states.length := by
          rw [List.get?_eq_getElem?] at hget
          exact (List.getElem?_eq_some_iff.mp hget).1
        have hlt2 : i < t.cell_states.length := by omega
        have ht : t.cell_states.get? i = some (t.cell_states.getD i default) := by
          rw [List.get?_eq_getElem?, List.getElem?_eq_getElem hlt2,
            getD_lt hlt2]
        have hsD : s.cell_states.getD i default = cell := by
          rw [List.getD_eq_getElem?_getD, ← List.get?_eq_getElem?, hget]
          rfl
        rw [ht]
        show some (t.cell_states.getD i default).kind = some cell.kind
        rw [hpt i hlt, hsD]
  have hkat : ∀ p : Int × Int, kind_at t p = kind_at s p := by
    intro p
    unfold kind_at
    have hthis := hmap p.1 p.2
    cases h1 : t.get_cell_state p.1 p.2 with
    | none =>
      cases h2 : s.get_cell_state p.1 p.2 with
      | none => rfl
      | some c2 => rw [h1, h2] at hthis; simp at hthis
    | some c1 =>
      cases h2 : s.get_cell_state p.1 p.2 with
      | none => rw [h1, h2] at hthis; simp at hthis
      | some c2 =>
        rw [h1, h2] at hthis
        show c1.kind = c2.kind
        exact Option.some.inj hthis
  have hadj : ∀ a b : Int, t.adjacent_mines a b = s.adjacent_mines a b := by
    intro a b
    unfold GameState.adjacent_mines
    refine List.countP_congr fun off _ => ?_
    have hthis := hmap (a + off.1) (b + off.2)
    cases h1 : t.get_cell_state (a + off.1) (b + off.2) with
    | none =>
      cases h2 : s.get_cell_state (a + off.1) (b + off.2) with
      | none => rfl
      | some c2 => rw [h1, h2] at hthis; simp at hthis
    | some c1 =>
      cases h2 : s.get_cell_state (a + off.1) (b + off.2) with
      | none => rw [h1, h2] at hthis; simp at hthis
      | some c2 =>
        rw [h1, h2] at hthis
        show c1.is_mine = true ↔ c2.is_mine = true
        rw [is_mine_congr (Option.some.inj hthis)]
  intro p hp
  rw [hr, hc] at hp
  rcases ha p hp with h | h
  · left
    rw [hkat p, h]
  · right
    rw [hkat p, h, hadj]

/-- `flag` preserves the game invariant. -/
theorem flag_inv {s : GameState} (row column : Int) (hinv : GameInv s) :
    GameInv (s.flag row column) := by
  obtain ⟨hlen, hr, hc, hm, hmlt, hcounter, hidle, hplaced, hstlt, hsync1,
    hsync2⟩ := hinv
  obtain ⟨hFr, hFc, hFm, hFcl, hFst, hFi, hFp, hFu, hFd, hFz, hFlen, hFpt⟩ :=
    flag_spec s row column
  have hccEq : count_cleared_clear (s.flag row column) =
      count_cleared_clear s := by
    unfold count_cleared_clear
    refine countP_eq_of_pointwise _ _ _ hFlen fun i hi => ?_
    have hi2 : i < s.cell_states.length := by omega
    obtain ⟨hk, hiff⟩ := hFpt i hi2
    have hcl : ((s.flag row column).cell_states.getD i default).is_clear =
        (s.cell_states.getD i default).is_clear := is_clear_congr hk
    by_cases hdec : (s.cell_states.getD i default).interaction =
      CellInteraction.Cleared
    · rw [show (decide (((s.flag row column).cell_states.getD i
          default).interaction = CellInteraction.Cleared)) = true from by
            rw [decide_eq_true_iff]; exact hiff.mpr hdec,
        show (decide ((s.cell_states.getD i default).interaction =
          CellInteraction.Cleared)) = true from by
            rw [decide_eq_true_iff]; exact hdec,
        Bool.true_and, Bool.true_and, hcl]
    · rw [show (decide (((s.flag row column).cell_states.getD i
          default).interaction = CellInteraction.Cleared)) = false from by
            rw [decide_eq_false_iff_not]
            exact fun hcon => hdec (hiff.mp hcon),
        show (decide ((s.cell_states.getD i default).interaction =
          CellInteraction.Cleared)) = false from by
            rw [decide_eq_false_iff_not]; exact hdec,
        Bool.false_and, Bool.false_and]
  have hcmEq : count_mines (s.flag row column) = count_mines s := by
    unfold count_mines
    refine countP_eq_of_pointwise _ _ _ hFlen fun i hi => ?_
    have hi2 : i < s.cell_states.length := by omega
    exact is_mine_congr (hFpt i hi2).1
  refine ⟨?_, ?_, ?_, ?_, ?_, ?_, ?_, ?_, ?_, ?_, ?_⟩
  · rw [hFlen, hFr, hFc]
    exact hlen
  · rw [hFr]; exact hr
  · rw [hFc]; exact hc
  · rw [hFm]; exact hm
  · rw [hFm, hFr, hFc]; exact hmlt
  · rw [hFcl, hccEq]; exact hcounter
  · intro hId
    rw [hFst] at hId
    obtain ⟨hcl0, hcells⟩ := hidle hId
    refine ⟨by rw [hFcl]; exact hcl0, ?_⟩
    intro cell hcell
    obtain ⟨i, hlt, hEq⟩ := List.mem_iff_getElem.mp hcell
    have hlt0 : i < s.cell_states.length := by omega
    obtain ⟨hk, hiff⟩ := hFpt i hlt0
    have hcellD : (s.flag row column).cell_states.getD i default = cell := by
      rw [getD_lt hlt, hEq]
    have hmem0 : s.cell_states.getD i default ∈ s.cell_states := by
      rw [getD_lt hlt0]
      exact List.getElem_mem hlt0
    obtain ⟨hk0, hne0⟩ := hcells _ hmem0
    rw [hcellD] at hk hiff
    exact ⟨by rw [hk, hk0], fun hcon => hne0 (hiff.mp hcon)⟩
  · intro hnid
    rw [hFst] at hnid
    obtain ⟨hcm0, hacc0⟩ := hplaced hnid
    refine ⟨by rw [hcmEq, hFm]; exact hcm0, ?_⟩
    refine accurate_of_pointwise_kinds hFr hFc hFlen ?_ hacc0
    exact fun i hi => (hFpt i hi).1
  · intro hSt
    rw [hFst] at hSt
    rw [hFcl, hFr, hFc, hFm]
    exact hstlt hSt
  · rw [hFi, hFcl]; exact hsync1
  · rw [hFi, hFst]; exact hsync2

/-- `reset` establishes the game invariant (given the dimension facts). -/
theorem reset_inv {s : GameState} (hinv : GameInv s) : GameInv s.reset := by
  obtain ⟨hlen, hr, hc, hm, hmlt, -, -, -, -, -, -⟩ := hinv
  obtain ⟨hRst, hRcl, hRr, hRc, hRm, -, -, -, -, hRlen, hRcells, hRinfo⟩ :=
    reset_spec s
  obtain ⟨hRcc, -⟩ := reset_counts s
  refine ⟨?_, ?_, ?_, ?_, ?_, ?_, ?_, ?_, ?_, ?_, ?_⟩
  · rw [hRlen, hRr, hRc]; exact hlen
  · rw [hRr]; exact hr
  · rw [hRc]; exact hc
  · rw [hRm]; exact hm
  · rw [hRm, hRr, hRc]; exact hmlt
  · rw [hRcl, hRcc]; rfl
  · intro _
    refine ⟨hRcl, ?_⟩
    intro cell hcell
    rw [hRcells cell hcell]
    exact ⟨rfl, fun hcon => by cases hcon⟩
  · intro hnid
    exact absurd hRst hnid
  · intro hSt
    rw [hRst] at hSt
    cases hSt
  · rw [hRinfo, hRcl]
  · rw [hRinfo, hRst]

/-- A fresh game satisfies the invariant. -/
theorem new_inv (difficulty : Difficulty) (size : Size) (username : String) :
    GameInv (GameState.new difficulty size username) := by
  cases difficulty <;> cases size
  case Easy.Small =>
    exact (by decide : GameInv (GameState.new Difficulty.Easy Size.Small ""))
  case Easy.Medium =>
    exact (by decide : GameInv (GameState.new Difficulty.Easy Size.Medium ""))
  case Easy.Large =>
    exact (by decide : GameInv (GameState.new Difficulty.Easy Size.Large ""))
  case Normal.Small =>
    exact (by decide : GameInv (GameState.new Difficulty.Normal Size.Small ""))
  case Normal.Medium =>
    exact (by decide : GameInv (GameState.new Difficulty.Normal Size.Medium ""))
  case Normal.Large =>
    exact (by decide : GameInv (GameState.new Difficulty.Normal Size.Large ""))
  case Hard.Small =>
    exact (by decide : GameInv (GameState.new Difficulty.Hard Size.Small ""))
  case Hard.Medium =>
    exact (by decide : GameInv (GameState.new Difficulty.Hard Size.Medium ""))
  case Hard.Large =>
    exact (by decide : GameInv (GameState.new Difficulty.Hard Size.Large ""))

/-- Every reachable state satisfies the invariant. -/
theorem reachable_inv {s : GameState} (h : Reachable s) : GameInv s := by
  induction h with
  | init difficulty size username => exact new_inv difficulty size username
  | dig_step s σ fuel row column s2 _ hdig ih => exact dig_inv ih hdig
  | flag_step s row column _ ih => exact flag_inv row column ih
  | reset_step s _ ih => exact reset_inv ih

/-! ### Termination of the rejection-sampling placement loop -/

theorem countP_or_le {α : Type _} (p q : α → Bool) :
    ∀ l : List α, l.countP (fun x => p x || q x) ≤ l.countP p + l.countP q
  | [] => Nat.le_refl 0
  | x :: l => by
    have hrec := countP_or_le p q l
    simp only [List.countP_cons]
    cases hp : p x <;> cases hq : q x <;> simp <;> omega

/-- When fewer cells are unavailable (excluded or already mined) than the
grid holds, some cell is still acceptable to the rejection sampler. -/
theorem exists_acceptable {total : Nat} {cells : List CellState}
    {excl : List Nat} (hlen : cells.length = total)
    (hlt : excl.length + cells.countP CellState.is_mine < total) :
    ∃ t, t < total ∧ t ∉ excl ∧
      (cells.getD t default).is_mine = false := by
  have hsplit := List.length_eq_countP_add_countP
    (fun t => decide (t ∈ excl) || (cells.getD t default).is_mine)
    (l := List.range total)
  rw [List.length_range] at hsplit
  have hbad : ((List.range total).countP
      fun t => decide (t ∈ excl) || (cells.getD t default).is_mine) ≤
      excl.length + cells.countP CellState.is_mine := by
    have hor := countP_or_le (fun t => decide (t ∈ excl))
      (fun t => (cells.getD t default).is_mine) (List.range total)
    have hmem := countP_mem_le_length (List.range total)
      (List.nodup_range _) excl
    have hmine : ((List.range total).countP
        fun t => (cells.getD t default).is_mine) =
        cells.countP CellState.is_mine := by
      have := countP_range_getD (CellState.is_mine) cells
      rw [hlen] at this
      exact this
    omega
  have hgood : 0 < (List.range total).countP
      fun t => ¬(decide (t ∈ excl) ||
        (cells.getD t default).is_mine) = true := by omega
  rw [List.countP_pos_iff] at hgood
  obtain ⟨t, hmem, ht⟩ := hgood
  rw [decide_eq_true_iff] at ht
  rw [Bool.or_eq_true, decide_eq_true_iff] at ht
  push_neg at ht
  exact ⟨t, List.mem_range.mp hmem, ht.1,
    Bool.eq_false_iff.mpr ht.2⟩

theorem pick_cell_succ (σ : Nat → Nat) (total : Nat) (cells : List CellState)
    (excl : List Nat) (k fuel : Nat) :
    pick_cell σ total cells excl k (fuel + 1) =
      if σ k % total ∈ excl then pick_cell σ total cells excl (k + 1) fuel
      else if (cells.getD (σ k % total) default).is_mine then
        pick_cell σ total cells excl (k + 1) fuel
      else some (σ k % total, k + 1) := rfl

theorem pick_cell_mono (σ : Nat → Nat) (total : Nat) (cells : List CellState)
    (excl : List Nat) :
    ∀ (fuel fuel2 k : Nat) (res : Nat × Nat), fuel ≤ fuel2 →
      pick_cell σ total cells excl k fuel = some res →
      pick_cell σ total cells excl k fuel2 = some res := by
  intro fuel
  induction fuel with
  | zero =>
    intro fuel2 k res _ h
    cases h
  | succ fuel ih =>
    intro fuel2 k res hle h
    cases fuel2 with
    | zero => omega
    | succ fuel2 =>
      rw [pick_cell_succ] at h ⊢
      by_cases hc1 : σ k % total ∈ excl
      · rw [if_pos hc1] at h ⊢
        exact ih fuel2 (k + 1) res (by omega) h
      · rw [if_neg hc1] at h ⊢
        by_cases hc2 : (cells.getD (σ k % total) default).is_mine = true
        · rw [if_pos hc2] at h ⊢
          exact ih fuel2 (k + 1) res (by omega) h
        · rw [if_neg hc2] at h ⊢
          exact h

/-- If the sample drawn `d` steps from now is acceptable, the rejection loop
returns within `d + 1` iterations. -/
theorem pick_cell_reach (σ : Nat → Nat) (total : Nat) (cells : List CellState)
    (excl : List Nat) :
    ∀ (d k : Nat), σ (k + d) % total ∉ excl →
      (cells.getD (σ (k + d) % total) default).is_mine = false →
      ∃ i k2, pick_cell σ total cells excl k (d + 1) = some (i, k2) := by
  intro d
  induction d with
  | zero =>
    intro k h1 h2
    simp only [Nat.add_zero] at h1 h2
    refine ⟨σ k % total, k + 1, ?_⟩
    rw [pick_cell_succ, if_neg h1, if_neg (by rw [h2]; exact Bool.false_ne_true)]
  | succ d ih =>
    intro k h1 h2
    have hsh : k + 1 + d = k + (d + 1) := by omega
    by_cases hc1 : σ k % total ∈ excl
    · obtain ⟨i, k2, hp⟩ := ih (k + 1) (by rw [hsh]; exact h1)
        (by rw [hsh]; exact h2)
      exact ⟨i, k2, by rw [pick_cell_succ, if_pos hc1]; exact hp⟩
    · by_cases hc2 : (cells.getD (σ k % total) default).is_mine = true
      · obtain ⟨i, k2, hp⟩ := ih (k + 1) (by rw [hsh]; exact h1)
          (by rw [hsh]; exact h2)
        exact ⟨i, k2, by rw [pick_cell_succ, if_neg hc1, if_pos hc2]; exact hp⟩
      · exact ⟨σ k % total, k + 1,
          by rw [pick_cell_succ, if_neg hc1, if_neg hc2]⟩

/-- Under a fair random stream, the rejection sampler succeeds with some
finite fuel whenever an acceptable cell exists. -/
theorem pick_cell_succeeds {σ : Nat → Nat} {total : Nat}
    (cells : List CellState) (excl : List Nat) (hfair : Fair σ)
    (htotal : 0 < total) {t : Nat} (ht : t < total) (hte : t ∉ excl)
    (htm : (cells.getD t default).is_mine = false) (k : Nat) :
    ∃ fuel i k2, pick_cell σ total cells excl k fuel = some (i, k2) := by
  obtain ⟨j, hkj, hj⟩ := hfair total k t htotal ht
  have hkd : k + (j - k) = j := by omega
  obtain ⟨i, k2, hp⟩ := pick_cell_reach σ total cells excl (j - k) k
    (by rw [hkd, hj]; exact hte) (by rw [hkd, hj]; exact htm)
  exact ⟨j - k + 1, i, k2, hp⟩

theorem place_mines_succ (σ : Nat → Nat) (total : Nat) (excl : List Nat)
    (remaining k fuel : Nat) (cells : List CellState) :
    place_mines σ total excl (remaining + 1) k fuel cells =
      match pick_cell σ total cells excl k fuel with
      | none => none
      | some (i, k2) =>
        place_mines σ total excl remaining k2 fuel
          (cells.set i { cells.getD i default with kind := CellKind.Mine }) :=
  rfl

theorem place_mines_mono (σ : Nat → Nat) (total : Nat) (excl : List Nat) :
    ∀ (remaining k fuel fuel2 : Nat) (cells res : List CellState),
      fuel ≤ fuel2 →
      place_mines σ total excl remaining k fuel cells = some res →
      place_mines σ total excl remaining k fuel2 cells = some res := by
  intro remaining
  induction remaining with
  | zero =>
    intro k fuel fuel2 cells res _ h
    exact h
  | succ remaining ih =>
    intro k fuel fuel2 cells res hle h
    rw [place_mines_succ] at h ⊢
    cases hp : pick_cell σ total cells excl k fuel with
    | none => rw [hp] at h; cases h
    | some ik =>
      obtain ⟨i, k2⟩ := ik
      rw [hp] at h
      rw [pick_cell_mono σ total cells excl fuel fuel2 k (i, k2) hle hp]
      exact ih k2 fuel fuel2 _ res hle h

/-- Under a fair random stream the whole placement loop terminates, as long
as the cells still to be mined fit among the available cells. -/
theorem place_mines_succeeds {σ : Nat → Nat} {total : Nat} {excl : List Nat}
    (hfair : Fair σ) (htotal : 0 < total) :
    ∀ (remaining : Nat) (cells : List CellState) (k : Nat),
      cells.length = total →
      excl.length + cells.countP CellState.is_mine + remaining ≤ total →
      ∃ fuel cells2,
        place_mines σ total excl remaining k fuel cells = some cells2 := by
  intro remaining
  induction remaining with
  | zero =>
    intro cells k _ _
    exact ⟨0, cells, rfl⟩
  | succ remaining ih =>
    intro cells k hlen hbound
    obtain ⟨t, ht, hte, htm⟩ := @exists_acceptable total cells excl hlen
      (by omega)
    obtain ⟨f1, i, k2, hp⟩ := pick_cell_succeeds cells excl hfair htotal
      ht hte htm k
    obtain ⟨hi_lt, -, hi_mine⟩ :=
      pick_cell_spec σ total cells excl htotal f1 k i k2 hp
    have hilt : i < cells.length := by omega
    have hlen2 : (cells.set i
        { cells.getD i default with kind := CellKind.Mine }).length = total := by
      rw [List.length_set]; exact hlen
    have hcount2 : (cells.set i
        { cells.getD i default with kind := CellKind.Mine }).countP
          CellState.is_mine = cells.countP CellState.is_mine + 1 := by
      rw [List.countP_set _ _ _ _ hilt]
      have hold : CellState.is_mine cells[i] = false := by
        rw [← getD_lt hilt]
        exact hi_mine
      have hnew : CellState.is_mine
          { cells.getD i default with kind := CellKind.Mine } = true := rfl
      rw [hold, hnew]
      simp only [Bool.false_eq_true, if_false, if_true]
      omega
    obtain ⟨f2, cells3, hplace⟩ := ih
      (cells.set i { cells.getD i default with kind := CellKind.Mine }) k2
      hlen2 (by rw [hcount2]; omega)
    refine ⟨max f1 f2, cells3, ?_⟩
    rw [place_mines_succ,
      pick_cell_mono σ total cells excl f1 (max f1 f2) k (i, k2)
        (Nat.le_max_left _ _) hp]
    exact place_mines_mono σ total excl remaining k2 f2 (max f1 f2) _ cells3
      (Nat.le_max_right _ _) hplace

/-- `GameState::start` terminates under a fair random stream given the
counting side conditions. -/
theorem start_succeeds {σ : Nat → Nat} {s : GameState} (row column : Int)
    (hfair : Fair σ) (htotal : 0 < (s.rows * s.columns).toNat)
    (hlen : s.cell_states.length = (s.rows * s.columns).toNat)
    (hbound : (s.exclude_zone row column).length +
        s.cell_states.countP CellState.is_mine + s.mines.toNat ≤
        (s.rows * s.columns).toNat) :
    ∃ fuel s1, GameState.start σ fuel s row column = some s1 := by
  obtain ⟨fuel, cells2, hplace⟩ := place_mines_succeeds hfair htotal
    s.mines.toNat s.cell_states 0 hlen hbound
  refine ⟨fuel, ?_⟩
  unfold GameState.start
  rw [hplace]
  exact ⟨_, rfl⟩

theorem exclude_zone_length_le (s : GameState) (row column : Int) :
    (s.exclude_zone row column).length ≤ 9 := by
  unfold GameState.exclude_zone
  exact Nat.le_trans (List.length_filterMap_le _ _) (by rfl)

/-! ### Chord-click neighbour analysis -/

theorem interaction_of_is_untouched {cell : CellState}
    (h : cell.is_untouched = true) :
    cell.interaction = CellInteraction.Untouched := by
  unfold CellState.is_untouched at h
  cases hi : cell.interaction
  · rfl
  · rw [hi] at h
    exact absurd h (by decide)
  · rw [hi] at h
    exact absurd h (by decide)

/-- Digging an in-bounds untouched cell with positive fuel marks it
`Cleared` (whatever its kind). -/
theorem dig_innerF_clears {fuel : Nat} {t : GameState} {row column : Int}
    {ncell : CellState}
    (hget : t.get_cell_state row column = some ncell)
    (hu : ncell.interaction = CellInteraction.Untouched) :
    ∀ cell2,
      (GameState.dig_innerF (fuel + 1) t row column).get_cell_state row column
        = some cell2 →
      cell2.interaction = CellInteraction.Cleared := by
  intro cell2 h2
  cases hk : ncell.kind with
  | Mine =>
    rw [dig_innerF_untouched_mine fuel hget hu hk] at h2
    have h3 : (t.set_cell_state row column
        { ncell with interaction := CellInteraction.Cleared }
        ).get_cell_state row column = some cell2 := h2
    rw [get_set_self hget] at h3
    injection h3 with h4
    rw [← h4]
  | Clear n =>
    cases n with
    | zero =>
      rw [dig_innerF_untouched_zero fuel hget hu hk] at h2
      have h3 : (ADJACENTS.foldl (cascade_step fuel row column)
          (t.set_cell_state row column
            { ncell with interaction := CellInteraction.Cleared })
          ).get_cell_state row column = some cell2 := h2
      have hds : DigStep (t.set_cell_state row column
          { ncell with interaction := CellInteraction.Cleared })
          (ADJACENTS.foldl (cascade_step fuel row column)
            (t.set_cell_state row column
              { ncell with interaction := CellInteraction.Cleared })) :=
        foldl_rel DigStep _ digStep_refl (fun _ _ _ => digStep_trans)
          ADJACENTS _ (fun u x _ => cascade_step_digStep fuel row column u x)
      obtain ⟨cell3, hget3, hk3, hstep3⟩ := (digStep_get hds row column).2 _
        (get_set_self hget _)
      rw [h3] at hget3
      injection hget3 with h4
      rw [h4]
      exact interStep_cleared_of hstep3 rfl
    | succ m =>
      rw [dig_innerF_untouched_pos fuel hget hu hk] at h2
      have h3 : (t.set_cell_state row column
          { ncell with interaction := CellInteraction.Cleared }
          ).get_cell_state row column = some cell2 := h2
      rw [get_set_self hget] at h3
      injection h3 with h4
      rw [← h4]

/-- A cell marked `Cleared` stays `Cleared` across any `DigStep`. -/
theorem digStep_stays_cleared {s t : GameState} (h : DigStep s t) {r c : Int}
    {cell : CellState} (hget : s.get_cell_state r c = some cell)
    (hc : cell.interaction = CellInteraction.Cleared) :
    ∀ cell2, t.get_cell_state r c = some cell2 →
      cell2.interaction = CellInteraction.Cleared := by
  intro cell2 h2
  obtain ⟨cell3, h3, _, hstep⟩ := (digStep_get h r c).2 cell hget
  rw [h2] at h3
  injection h3 with h4
  rw [h4]
  exact interStep_cleared_of hstep hc

/-- When a chord fires, every in-bounds neighbour that was `Untouched` ends
the fold `Cleared`. -/
theorem chord_fold_clears (fuel : Nat) (row column : Int) (s : GameState) :
    ∀ off ∈ ADJACENTS, ∀ ncell,
      s.get_cell_state (row + off.1) (column + off.2) = some ncell →
      ncell.interaction = CellInteraction.Untouched →
      ∀ ncell2,
        (ADJACENTS.foldl (chord_step (fuel + 1) row column) s).get_cell_state
          (row + off.1) (column + off.2) = some ncell2 →
        ncell2.interaction = CellInteraction.Cleared := by
  intro off hoff ncell hget hu ncell2 h2
  obtain ⟨l1, l2, hsplit⟩ := List.append_of_mem hoff
  rw [hsplit, List.foldl_append, List.foldl_cons] at h2
  have hds1 : DigStep s (l1.foldl (chord_step (fuel + 1) row column) s) :=
    foldl_rel DigStep _ digStep_refl (fun _ _ _ => digStep_trans) l1 s
      (fun u x _ => chord_step_digStep (fuel + 1) row column u x)
  obtain ⟨ncell1, hget1, hk1, hstep1⟩ :=
    (digStep_get hds1 (row + off.1) (column + off.2)).2 ncell hget
  have hds2 : DigStep
      (chord_step (fuel + 1) row column
        (l1.foldl (chord_step (fuel + 1) row column) s) off)
      (l2.foldl (chord_step (fuel + 1) row column)
        (chord_step (fuel + 1) row column
          (l1.foldl (chord_step (fuel + 1) row column) s) off)) :=
    foldl_rel DigStep _ digStep_refl (fun _ _ _ => digStep_trans) l2 _
      (fun u x _ => chord_step_digStep (fuel + 1) row column u x)
  rcases hstep1 with heq1 | ⟨-, hcl1⟩
  · -- the neighbour is still untouched when its chord step runs: it is dug
    have hu1 : ncell1.interaction = CellInteraction.Untouched := by
      rw [← heq1, hu]
    obtain ⟨cellm, hgetm, hkm, hstepm⟩ :=
      digStep_get_back hds2 (row + off.1) (column + off.2) ncell2 h2
    have hgetm2 : (GameState.dig_innerF (fuel + 1)
        (l1.foldl (chord_step (fuel + 1) row column) s)
        (row + off.1) (column + off.2)).get_cell_state
        (row + off.1) (column + off.2) = some cellm := by
      rw [← chord_step_eq_dig hget1 (is_untouched_of_interaction hu1)]
      exact hgetm
    have hclm : cellm.interaction = CellInteraction.Cleared :=
      dig_innerF_clears hget1 hu1 cellm hgetm2
    exact interStep_cleared_of hstepm hclm
  · -- the neighbour was already cleared by an earlier chord step
    have hds3 : DigStep (l1.foldl (chord_step (fuel + 1) row column) s)
        (l2.foldl (chord_step (fuel + 1) row column)
          (chord_step (fuel + 1) row column
            (l1.foldl (chord_step (fuel + 1) row column) s) off)) :=
      digStep_trans (chord_step_digStep (fuel + 1) row column _ off) hds2
    exact digStep_stays_cleared hds3 hget1 hcl1 ncell2 h2

/-! ### The concrete scenario is reachable -/

set_option maxRecDepth 100000
set_option maxHeartbeats 1000000

theorem game1_eq : GameState.dig sigma_seq 200 game0 7 11 = some game1 := by
  decide

theorem game2_eq : GameState.dig sigma_seq 200 game1 0 1 = some game2 := by
  decide

theorem game3_eq : game2.flag 1 1 = game3 := by decide

theorem reachable_game3 : Reachable game3 := by
  rw [← game3_eq]
  exact Reachable.flag_step game2 1 1
    (Reachable.dig_step game1 sigma_seq 200 0 1 game2
      (Reachable.dig_step game0 sigma_seq 200 7 11 game1
        (Reachable.init Difficulty.Easy Size.Small "player") game1_eq)
      game2_eq)

/-! ### The claims -/

/-- C1: From a `Started` state satisfying the game invariant, a `dig` ends in
`Victory` exactly when it brings `cleared` to `rows * columns - mines`; on
that transition exactly one score record (username, elapsed seconds,
difficulty, size) is appended to the dispatched posts, and otherwise the
posts are unchanged. -/
theorem claim_C1_victory_score (σ : Nat → Nat) (fuel : Nat) (s : GameState)
    (row column : Int) (s2 : GameState) (hinv : GameInv s)
    (hst : s.status = GameStatus.Started)
    (h : GameState.dig σ fuel s row column = some s2) :
    (s2.status = GameStatus.Victory ↔
      s2.cleared = s.rows * s.columns - s.mines) ∧
    (s2.status = GameStatus.Victory →
      s2.posts = s.posts ++
        [{ username := s.username
           time_in_seconds := s.info.elapsed_seconds
           difficulty := s.difficulty
           size := s.size }]) ∧
    (s2.status ≠ GameStatus.Victory → s2.posts = s.posts) := by
  obtain ⟨hlen, hr, hc, hm, hmlt, hcounter, hidle, hplaced, hstlt, hsync1,
    hsync2⟩ := hinv
  obtain ⟨hmines, hacc⟩ := hplaced (by rw [hst]; exact fun hx => nomatch hx)
  have hN := hstlt hst
  rcases dig_cases h with ⟨hterm, rfl⟩ | ⟨-, rfl⟩ | ⟨hidle2, -⟩
  · rcases hterm with hx | hx <;> rw [hst] at hx <;> cases hx
  · obtain ⟨hR, hC, hM, hP, hI, hU, hD, hS, hL, hK, hSt, hDelta⟩ :=
      dig_inner_digStep s row column
    obtain ⟨ufR, ufC, ufM, ufCl, ufCs, ufU, ufD, ufS⟩ :=
      update_score_frame (s.dig_inner row column)
    have hMcount := digStep_count_mines (dig_inner_digStep s row column)
    have hc3 : (s.dig_inner row column).cleared =
        (count_cleared_clear (s.dig_inner row column) : Int) := by omega
    have hkey : (s.dig_inner row column).status = GameStatus.GameOver →
        (s.dig_inner row column).cleared < s.rows * s.columns - s.mines := by
      intro hGO
      have hgo2 : bad_flag (s.dig_inner row column) ∨
          ((s.dig_inner row column).cleared = s.cleared ∧ ∃ cell,
            s.get_cell_state row column = some cell ∧
            cell.interaction = CellInteraction.Untouched ∧
            cell.kind = CellKind.Mine) :=
        dig_innerF_gameover (2 * s.cell_states.length + 2) s row column hacc
          (by rw [hst]; exact fun hx => nomatch hx) hGO
      rcases hgo2 with hbad | ⟨hsame, -⟩
      · have hlt := countCC_lt_of_bad_flag hbad
        have hA : ((s.rows * s.columns).toNat : Int) = s.rows * s.columns :=
          Int.toNat_of_nonneg (mul_pos hr hc).le
        have hB : ((s.mines.toNat : Int)) = s.mines :=
          Int.toNat_of_nonneg hm.le
        rw [hMcount, hmines, hL, hlen] at hlt
        omega
      · rw [hsame]
        exact hN
    rcases update_score_status (s.dig_inner row column) with
      ⟨hst3, hcl3, hvic, hposts⟩ | ⟨hsame, hposts, hnot⟩
    · rw [hR, hC, hM] at hcl3
      refine ⟨?_, fun _ => ?_, fun hne => absurd hvic hne⟩
      · rw [hvic, ufCl, hcl3]
        simp
      · rw [hposts, hP, hI, hU, hD, hS]
    · have hne2 : ¬ (s.dig_inner row column).cleared =
          s.rows * s.columns - s.mines := by
        intro heq
        rcases hSt with hstat | hstat
        · exact hnot ⟨by rw [hstat, hst], by rw [hR, hC, hM]; exact heq⟩
        · have := hkey hstat
          omega
      refine ⟨?_, ?_, fun _ => by rw [hposts, hP]⟩
      · rw [hsame, ufCl]
        constructor
        · intro hv
          rcases hSt with hstat | hstat
          · rw [hstat, hst] at hv; cases hv
          · rw [hstat] at hv; cases hv
        · intro hcl
          exact absurd hcl hne2
      · intro hv
        rw [hsame] at hv
        rcases hSt with hstat | hstat
        · rw [hstat, hst] at hv; cases hv
        · rw [hstat] at hv; cases hv
  · rw [hst] at hidle2
    cases hidle2

theorem claim_C1_witness : game2.posts = game1.posts :=
  (claim_C1_victory_score sigma_seq 200 game1 0 1 game2 (by decide) rfl
    game2_eq).2.2 (by decide)

/-- C2: From an `Idle` state satisfying the game invariant, a successful
`dig` (for any random stream and fuel) leaves every in-bounds cell of the
safe zone — the clicked cell and its neighbours — with a `Clear` kind: the
first dig never places a mine there. -/
theorem claim_C2_first_dig_safe (σ : Nat → Nat) (fuel : Nat) (s : GameState)
    (row column : Int) (s2 : GameState) (hinv : GameInv s)
    (hst : s.status = GameStatus.Idle)
    (h : GameState.dig σ fuel s row column = some s2) :
    ∀ off ∈ (((0, 0) : Int × Int) :: ADJACENTS), ∀ cell,
      s2.get_cell_state (row + off.1) (column + off.2) = some cell →
      cell.is_clear = true := by
  obtain ⟨hlen, hr, hc, -, -, -, hidle, -, -, -, -⟩ := hinv
  rcases dig_cases h with ⟨hterm, rfl⟩ | ⟨hstt, rfl⟩ | ⟨-, s1, hstart, rfl⟩
  · rcases hterm with hx | hx <;> rw [hst] at hx <;> cases hx
  · rw [hst] at hstt
    cases hstt
  · have hnomine : ∀ cell ∈ s.cell_states, cell.is_mine = false := by
      intro cell hcell
      have hk := ((hidle hst).2 cell hcell).1
      unfold CellState.is_mine
      rw [hk]
    obtain ⟨-, -, -, -, -, -, -, -, -, -, -, -, -, hlast⟩ :=
      start_spec hlen hr hc hstart
    obtain ⟨-, hsafe⟩ := hlast hnomine
    intro off hoff cell hget2
    obtain ⟨ufR, ufC, -, -, ufCs, -, -, -⟩ :=
      update_score_frame (s1.dig_inner row column)
    rw [get_cell_state_congr ufR ufC ufCs (row + off.1) (column + off.2)]
      at hget2
    obtain ⟨cell1, hget1, hk1, -⟩ := digStep_get_back
      (dig_inner_digStep s1 row column) (row + off.1) (column + off.2) cell
      hget2
    rw [is_clear_congr hk1]
    exact hsafe off hoff cell1 hget1

theorem claim_C2_witness :
    ∃ s2, GameState.dig (fun k => k) 200 game0 0 0 = some s2 ∧
      ∀ off ∈ (((0, 0) : Int × Int) :: ADJACENTS), ∀ cell,
        s2.get_cell_state (0 + off.1) (0 + off.2) = some cell →
        cell.is_clear = true := by
  have hsome : (GameState.dig (fun k => k) 200 game0 0 0).isSome = true := by
    decide
  obtain ⟨s2, hs2⟩ := Option.isSome_iff_exists.mp hsome
  exact ⟨s2, hs2,
    claim_C2_first_dig_safe (fun k => k) 200 game0 0 0 s2 (by decide) rfl hs2⟩

/-- C3: In every reachable state `cleared` equals the number of cells that
are `Cleared` with a `Clear` kind; a `dig` from an invariant-satisfying
state never decreases `cleared` and moves it in lockstep with that count,
`flag` leaves it unchanged, and `reset` returns it to `0`. -/
theorem claim_C3_cleared_counter :
    (∀ s : GameState, Reachable s →
      s.cleared = (count_cleared_clear s : Int)) ∧
    (∀ (σ : Nat → Nat) (fuel : Nat) (s s2 : GameState) (row column : Int),
      GameInv s → GameState.dig σ fuel s row column = some s2 →
      s.cleared ≤ s2.cleared ∧
      s2.cleared - s.cleared =
        (count_cleared_clear s2 : Int) - (count_cleared_clear s : Int)) ∧
    (∀ (s : GameState) (row column : Int),
      (s.flag row column).cleared = s.cleared) ∧
    (∀ s : GameState, (s.reset).cleared = 0) := by
  refine ⟨?_, ?_, ?_, ?_⟩
  · intro s hreach
    exact (reachable_inv hreach).2.2.2.2.2.1
  · intro σ fuel s s2 row column hinv h
    have hinv2 := dig_inv hinv h
    have h1 := hinv.2.2.2.2.2.1
    have h2 := hinv2.2.2.2.2.2.1
    constructor
    · rcases dig_cases h with ⟨-, rfl⟩ | ⟨-, rfl⟩ | ⟨hidle, -, -, -⟩
      · exact le_refl _
      · have hcl := digStep_cleared_le (dig_inner_digStep s row column)
        have huf := (update_score_frame (s.dig_inner row column)).2.2.2.1
        rw [huf]
        exact hcl
      · have h0 : s.cleared = 0 := (hinv.2.2.2.2.2.2.1 hidle).1
        rw [h0, h2]
        exact Int.ofNat_nonneg _
    · rw [h1, h2]
  · intro s row column
    exact (flag_spec s row column).2.2.2.1
  · intro s
    exact (reset_spec s).2.1

theorem claim_C3_witness :
    game1.cleared = (count_cleared_clear game1 : Int) ∧
    game1.cleared ≤ game2.cleared ∧
    (game3.flag 2 2).cleared = game3.cleared ∧
    (game1.reset).cleared = 0 := by
  refine ⟨?_, ?_, ?_, ?_⟩
  · exact claim_C3_cleared_counter.1 game1
      (Reachable.dig_step game0 sigma_seq 200 7 11 game1
        (Reachable.init Difficulty.Easy Size.Small "player") game1_eq)
  · exact (claim_C3_cleared_counter.2.1 sigma_seq 200 game1 game2 0 1
      (by decide) game2_eq).1
  · exact claim_C3_cleared_counter.2.2.1 game3 2 2
  · exact claim_C3_cleared_counter.2.2.2 game1

/-- C4: Digging a revealed `Clear n` cell is a chord click: when the number
of flagged neighbours differs from `n` the whole state is unchanged, and
when it equals `n` every in-bounds neighbour that was `Untouched` is dug
(it ends the dig `Cleared`). -/
theorem claim_C4_chord (s : GameState) (row column : Int) (n : Nat)
    (cell : CellState)
    (hget : s.get_cell_state row column = some cell)
    (hint : cell.interaction = CellInteraction.Cleared)
    (hkind : cell.kind = CellKind.Clear n) :
    (¬ n = s.adjacent_flags row column → s.dig_inner row column = s) ∧
    (n = s.adjacent_flags row column →
      ∀ off ∈ ADJACENTS, ∀ ncell,
        s.get_cell_state (row + off.1) (column + off.2) = some ncell →
        ncell.interaction = CellInteraction.Untouched →
        ∀ ncell2,
          (s.dig_inner row column).get_cell_state (row + off.1)
            (column + off.2) = some ncell2 →
          ncell2.interaction = CellInteraction.Cleared) := by
  constructor
  · intro hne
    show GameState.dig_innerF (2 * s.cell_states.length + 2) s row column = s
    exact dig_innerF_chord_ne (2 * s.cell_states.length + 1) hget hint hkind
      hne
  · intro heq off hoff ncell hgetn hu ncell2 hgetn2
    have hfold : s.dig_inner row column =
        ADJACENTS.foldl (chord_step (2 * s.cell_states.length + 1) row column)
          s := by
      show GameState.dig_innerF (2 * s.cell_states.length + 2) s row column =
        _
      exact dig_innerF_chord (2 * s.cell_states.length + 1) hget hint hkind
        heq
    rw [hfold] at hgetn2
    exact chord_fold_clears (2 * s.cell_states.length) row column s off hoff
      ncell hgetn hu ncell2 hgetn2

theorem claim_C4_witness :
    ((game3.dig_inner 0 1).get_cell_state 0 2).map CellState.interaction =
      some CellInteraction.Cleared := by
  have happ := (claim_C4_chord game3 0 1 1
      ⟨CellInteraction.Cleared, CellKind.Clear 1⟩ (by decide) rfl rfl).2
    (by decide) (0, 1) (by decide) ⟨CellInteraction.Untouched, CellKind.Mine⟩
    (by decide) rfl
  have hsome : ((game3.dig_inner 0 1).get_cell_state 0 2).isSome = true := by
    decide
  obtain ⟨c2, hc2⟩ := Option.isSome_iff_exists.mp hsome
  have hcl : c2.interaction = CellInteraction.Cleared := happ c2 hc2
  rw [hc2]
  simp [hcl]

/-- C5: In a terminal state (GameOver or Victory), `dig` and `flag` are
no-ops: `dig` returns the state unchanged and `flag` leaves it unchanged. -/
theorem claim_C5_terminal_noop (σ : Nat → Nat) (fuel : Nat) (s : GameState)
    (row column : Int)
    (h : s.status = GameStatus.GameOver ∨ s.status = GameStatus.Victory) :
    GameState.dig σ fuel s row column = some s ∧ s.flag row column = s := by
  constructor
  · unfold GameState.dig
    rcases h with h | h <;> rw [h]
  · exact flag_terminal row column h

theorem claim_C5_witness :
    GameState.dig (fun k => k) 1 game_over0 0 0 = some game_over0 ∧
    game_over0.flag 0 0 = game_over0 :=
  claim_C5_terminal_noop (fun k => k) 1 game_over0 0 0 (Or.inl rfl)

/-- C6 counterexample: from the `Idle` state, digging the out-of-bounds
position `(-1, -1)` is not a no-op — it performs the lazy start (placing
mines and switching the status to `Started`) before the out-of-bounds lookup
fails, so the state changes. -/
theorem claim_C6_counterexample :
    game0.status = GameStatus.Idle ∧
    game0.index (-1) (-1) = none ∧
    (GameState.dig (fun k => k) 200 game0 (-1) (-1)).map GameState.status =
      some GameStatus.Started ∧
    ¬ GameState.dig (fun k => k) 200 game0 (-1) (-1) = some game0 := by
  refine ⟨rfl, rfl, by decide, by decide⟩

/-- C6 (amended): in every non-`Idle` state satisfying the game invariant,
digging an out-of-bounds position is a silent no-op returning the state
unchanged; from `Idle` the dig still performs the lazy start first, so the
status changes to `Started` even for an out-of-bounds click. -/
theorem claim_C6_out_of_bounds (σ : Nat → Nat) (fuel : Nat) (s : GameState)
    (row column : Int) (hinv : GameInv s)
    (hnid : s.status ≠ GameStatus.Idle)
    (hoob : s.index row column = none) :
    GameState.dig σ fuel s row column = some s := by
  obtain ⟨hlen, hr, hc, hm, hmlt, hcounter, hidle, hplaced, hstlt, hsync1,
    hsync2⟩ := hinv
  have hgetnone : s.get_cell_state row column = none := by
    unfold GameState.get_cell_state
    rw [hoob]
    rfl
  cases hs : s.status
  case Idle => exact absurd hs hnid
  case GameOver =>
    unfold GameState.dig
    rw [hs]
  case Victory =>
    unfold GameState.dig
    rw [hs]
  case Started =>
    have hdi : s.dig_inner row column = s := by
      show GameState.dig_innerF (2 * s.cell_states.length + 2) s row column =
        s
      exact dig_innerF_none (2 * s.cell_states.length + 1) hgetnone
    have hne : ¬ s.cleared = s.rows * s.columns - s.mines := by
      have := hstlt hs
      omega
    unfold GameState.dig
    rw [hs]
    show some ((s.dig_inner row column).update_score) = some s
    rw [hdi, update_score_of_started_ne hs hne]
    rw [show ({ s.info with
        cleared := s.cleared
        status := s.status } : GameInfo) = s.info from by
      rw [← hsync1, ← hsync2]]

theorem claim_C6_witness :
    GameState.dig (fun k => k) 200 game1 (-1) (-1) = some game1 :=
  claim_C6_out_of_bounds (fun k => k) 200 game1 (-1) (-1) (by decide)
    (by decide) (by decide)

/-- C7: `reset` establishes its postcondition for every state: status
`Idle`, `cleared = 0`, every cell `(Untouched, Clear 0)`, and a fresh
`GameInfo` snapshot with `clear_total = rows * columns - mines` and default
fields. -/
theorem claim_C7_reset (s : GameState) :
    (s.reset).status = GameStatus.Idle ∧
    (s.reset).cleared = 0 ∧
    (∀ cell ∈ (s.reset).cell_states,
      cell.interaction = CellInteraction.Untouched ∧
      cell.kind = CellKind.Clear 0) ∧
    (s.reset).info = { elapsed_seconds := 0
                       cleared := 0
                       clear_total := s.rows * s.columns - s.mines
                       status := GameStatus.Idle } := by
  obtain ⟨h1, h2, -, -, -, -, -, -, -, -, hcells, hinfo⟩ := reset_spec s
  refine ⟨h1, h2, ?_, hinfo⟩
  intro cell hcell
  rw [hcells cell hcell]
  exact ⟨rfl, rfl⟩

theorem claim_C7_witness :
    (game3.reset).status = GameStatus.Idle ∧ (game3.reset).cleared = 0 ∧
    (game3.reset).info = { elapsed_seconds := 0
                           cleared := 0
                           clear_total :=
                             game3.rows * game3.columns - game3.mines
                           status := GameStatus.Idle } :=
  ⟨(claim_C7_reset game3).1, (claim_C7_reset game3).2.1,
    (claim_C7_reset game3).2.2.2⟩

/-- C8: For each of the nine difficulty-size combinations the constructed
game has `mines = floor(rows * columns * probability)` (probability 0.15 /
0.25 / 0.35, spec-modelled by `spec_mine_count`) with
`0 < mines < rows * columns`; in particular Easy/Small gives `mines = 14`
and `clear_total = 82`. -/
theorem claim_C8_mine_counts (difficulty : Difficulty) (size : Size)
    (username : String) :
    (GameState.new difficulty size username).mines =
      spec_mine_count (GameState.new difficulty size username).rows
        (GameState.new difficulty size username).columns difficulty ∧
    0 < (GameState.new difficulty size username).mines ∧
    (GameState.new difficulty size username).mines <
      (GameState.new difficulty size username).rows *
        (GameState.new difficulty size username).columns ∧
    (GameState.new Difficulty.Easy Size.Small username).mines = 14 ∧
    (GameState.new Difficulty.Easy Size.Small username).info.clear_total =
      82 := by
  have h14 : (GameState.new Difficulty.Easy Size.Small username).mines = 14 :=
    (by decide : (GameState.new Difficulty.Easy Size.Small "").mines = 14)
  have h82 : (GameState.new Difficulty.Easy Size.Small
      username).info.clear_total = 82 :=
    (by decide :
      (GameState.new Difficulty.Easy Size.Small "").info.clear_total = 82)
  have hpos : ∀ d z, 0 < (GameState.new d z "").mines ∧
      (GameState.new d z "").mines <
        (GameState.new d z "").rows * (GameState.new d z "").columns := by
    intro d z
    cases d <;> cases z <;> exact ⟨by decide, by decide⟩
  have hfloor : ∀ d z, (GameState.new d z "").mines =
      spec_mine_count (GameState.new d z "").rows
        (GameState.new d z "").columns d := by
    intro d z
    cases d <;> cases z
    · show (14 : Int) = spec_mine_count 8 12 Difficulty.Easy
      norm_num [spec_mine_count, spec_probability]
    · show (22 : Int) = spec_mine_count 10 15 Difficulty.Easy
      norm_num [spec_mine_count, spec_probability]
    · show (32 : Int) = spec_mine_count 12 18 Difficulty.Easy
      norm_num [spec_mine_count, spec_probability]
    · show (24 : Int) = spec_mine_count 8 12 Difficulty.Normal
      norm_num [spec_mine_count, spec_probability]
    · show (37 : Int) = spec_mine_count 10 15 Difficulty.Normal
      norm_num [spec_mine_count, spec_probability]
    · show (54 : Int) = spec_mine_count 12 18 Difficulty.Normal
      norm_num [spec_mine_count, spec_probability]
    · show (33 : Int) = spec_mine_count 8 12 Difficulty.Hard
      norm_num [spec_mine_count, spec_probability]
    · show (52 : Int) = spec_mine_count 10 15 Difficulty.Hard
      norm_num [spec_mine_count, spec_probability]
    · show (75 : Int) = spec_mine_count 12 18 Difficulty.Hard
      norm_num [spec_mine_count, spec_probability]
  exact ⟨hfloor difficulty size, (hpos difficulty size).1,
    (hpos difficulty size).2, h14, h82⟩

/-- The identity stream is fair: every residue modulo every positive bound
occurs arbitrarily late. -/
theorem fair_id : Fair (fun k => k) := by
  intro total k t htotal hlt
  refine ⟨total * k + t, ?_, ?_⟩
  · have h1 : k ≤ total * k := Nat.le_mul_of_pos_left k htotal
    omega
  · show (total * k + t) % total = t
    rw [Nat.add_comm, Nat.add_mul_mod_self_left]
    exact Nat.mod_eq_of_lt hlt

/-- C9: For every difficulty-size combination, click position and fair
random stream, `mines < rows * columns - |safe zone|` holds and the lazy
mine-placement loop of the first dig terminates: some finite fuel makes
`start` succeed. -/
theorem claim_C9_placement_terminates (difficulty : Difficulty) (size : Size)
    (username : String) (row column : Int) (σ : Nat → Nat) (hσ : Fair σ) :
    (GameState.new difficulty size username).mines <
      (GameState.new difficulty size username).rows *
        (GameState.new difficulty size username).columns -
        ((GameState.new difficulty size username).exclude_zone row
          column).length ∧
    ∃ fuel s1,
      GameState.start σ fuel (GameState.new difficulty size username) row
        column = some s1 := by
  obtain ⟨hlen, hr, hc, hm, -, -, -, -, -, -, -⟩ :=
    new_inv difficulty size username
  have h9 : ((GameState.new difficulty size username).exclude_zone row
      column).length ≤ 9 :=
    exclude_zone_length_le _ row column
  have hb : ∀ d z, (GameState.new d z "").mines <
      (GameState.new d z "").rows * (GameState.new d z "").columns - 9 := by
    intro d z
    cases d <;> cases z <;> decide
  have hb2 : (GameState.new difficulty size username).mines <
      (GameState.new difficulty size username).rows *
        (GameState.new difficulty size username).columns - 9 :=
    hb difficulty size
  have hA : (((GameState.new difficulty size username).rows *
      (GameState.new difficulty size username).columns).toNat : Int) =
      (GameState.new difficulty size username).rows *
        (GameState.new difficulty size username).columns :=
    Int.toNat_of_nonneg (mul_pos hr hc).le
  have hB : (((GameState.new difficulty size username).mines.toNat : Int)) =
      (GameState.new difficulty size username).mines :=
    Int.toNat_of_nonneg hm.le
  have hc0 : (GameState.new difficulty size
      username).cell_states.countP CellState.is_mine = 0 :=
    List.countP_eq_zero.mpr fun a ha => by
      rw [List.eq_of_mem_replicate ha]
      exact fun hx => nomatch hx
  constructor
  · omega
  · refine start_succeeds row column hσ ?_ hlen ?_
    · omega
    · rw [hc0]
      omega

theorem claim_C9_witness :
    (GameState.new Difficulty.Easy Size.Small "player").mines <
      (GameState.new Difficulty.Easy Size.Small "player").rows *
        (GameState.new Difficulty.Easy Size.Small "player").columns -
        ((GameState.new Difficulty.Easy Size.Small "player").exclude_zone 0
          0).length :=
  (claim_C9_placement_terminates Difficulty.Easy Size.Small "player" 0 0
    (fun k => k) fair_id).1

/-- C10 counterexample: `game3` is reachable and its numbering is accurate,
the cell at `(0, 0)` is an untouched `Clear 0`, and yet digging it ends in
`GameOver`: the flood-fill cascade re-digs the already-revealed `Clear 1`
at `(0, 1)`, whose chord click detonates the mine at `(0, 2)` hidden by the
misplaced flag on `(1, 1)`. -/
theorem claim_C10_counterexample :
    Reachable game3 ∧
    accurate game3 ∧
    game3.get_cell_state 0 0 =
      some ⟨CellInteraction.Untouched, CellKind.Clear 0⟩ ∧
    (GameState.dig sigma_seq 200 game3 0 0).map GameState.status =
      some GameStatus.GameOver := by
  refine ⟨reachable_game3, by decide, by decide, by decide⟩

/-- C10 (amended): in every accurate, non-game-over state each `Clear 0`
cell indeed has zero adjacent mines; but the cascade started by digging an
untouched `Clear 0` cell is only guaranteed not to reach `GameOver` when no
flag is misplaced: if it does end in `GameOver`, the resulting state
contains a flagged non-mine cell. -/
theorem claim_C10_zero_cells (s : GameState) (hacc : accurate s)
    (hnotGO : s.status ≠ GameStatus.GameOver) :
    (∀ row column cell, s.get_cell_state row column = some cell →
      cell.kind = CellKind.Clear 0 → s.adjacent_mines row column = 0) ∧
    (∀ row column cell, s.get_cell_state row column = some cell →
      cell.interaction = CellInteraction.Untouched →
      cell.kind = CellKind.Clear 0 →
      (s.dig_inner row column).status = GameStatus.GameOver →
      bad_flag (s.dig_inner row column)) := by
  constructor
  · intro row column cell hget hk
    have hmem := get_mem_all_positions hget
    have hka := kind_at_of_get hget
    rcases hacc (row, column) hmem with hx | hx
    · rw [hka, hk] at hx
      cases hx
    · rw [hka, hk] at hx
      injection hx with hx2
      exact hx2.symm
  · intro row column cell hget hu hk hGO
    have hgo2 : bad_flag (s.dig_inner row column) ∨
        ((s.dig_inner row column).cleared = s.cleared ∧ ∃ cell2,
          s.get_cell_state row column = some cell2 ∧
          cell2.interaction = CellInteraction.Untouched ∧
          cell2.kind = CellKind.Mine) :=
      dig_innerF_gameover (2 * s.cell_states.length + 2) s row column hacc
        hnotGO hGO
    rcases hgo2 with hbad | ⟨-, cell2, hget2, -, hk2⟩
    · exact hbad
    · rw [hget] at hget2
      injection hget2 with he
      rw [← he] at hk2
      rw [hk] at hk2
      cases hk2

theorem claim_C10_witness : game3.adjacent_mines 0 0 = 0 :=
  (claim_C10_zero_cells game3 (by decide) (by decide)).1 0 0
    ⟨CellInteraction.Untouched, CellKind.Clear 0⟩ (by decide) rfl

theorem claim_C8_witness :
    (GameState.new Difficulty.Easy Size.Small "player").mines = 14 :=
  (claim_C8_mine_counts Difficulty.Easy Size.Small "player").2.2.2.1
